import Mathlib

/-!
Verification of the SAPN (Sequential Auto Part Number) generator plugin
(`src/ipn_generator/generator.py`).

The embedding models Python strings as `List Char` (code points).  Python's
`str.strip`, `str.upper`, the regular-expression character classes and the
`int` constructor are modelled on their ASCII fragments (the plugin's data —
category codes, digit codes, identifier strings — is ASCII); `re.match`'s
quirk that `$` also matches just before a single trailing newline is
modelled faithfully.  The Django query
`Part.objects.filter(IPN__startswith=prefix).order_by("-IPN").first()`
is modelled as the lexicographically (code-point) maximal element of the
list of stored identifier strings that start with the given prefix.
-/

set_option maxRecDepth 4096

namespace SAPN

/-- Python strings, modelled as lists of code points. -/
abbrev Str := List Char

instance {ε α : Type} [DecidableEq ε] [DecidableEq α] : DecidableEq (Except ε α) := fun a b =>
  match a, b with
  | .ok x, .ok y =>
    if h : x = y then isTrue (by rw [h]) else isFalse (by intro hh; cases hh; exact h rfl)
  | .error x, .error y =>
    if h : x = y then isTrue (by rw [h]) else isFalse (by intro hh; cases hh; exact h rfl)
  | .ok _, .error _ => isFalse (by intro hh; cases hh)
  | .error _, .ok _ => isFalse (by intro hh; cases hh)

/-! ## Constants from generator.py -/

/-- Embeds `SAPN_PREFIX = "SAPN"`. -/
def sapnPrefixStr : Str := "SAPN".data

/-- Embeds `SAPN_MAX_SEQUENCE = 99999`. -/
def SAPN_MAX_SEQUENCE : Int := 99999

/-- Embeds `SAPN_RETRY_ATTEMPTS = 10`. -/
def SAPN_RETRY_ATTEMPTS : Nat := 10

/-! ## Python string primitives -/

/-- ASCII whitespace, the ASCII fragment of the set stripped by `str.strip()`. -/
def isAsciiSpace (c : Char) : Bool :=
  c = ' ' || c = '\t' || c = '\n' || c = '\r' || c = '\x0b' || c = '\x0c'

/-- Embeds the left half of Python `str.strip()`. -/
def pyStripLeft (s : Str) : Str := s.dropWhile isAsciiSpace

/-- Embeds the right half of Python `str.strip()`. -/
def pyStripRight (s : Str) : Str := (s.reverse.dropWhile isAsciiSpace).reverse

/-- Embeds Python `str.strip()` (ASCII whitespace fragment). -/
def pyStrip (s : Str) : Str := pyStripRight (pyStripLeft s)

/-- Embeds Python `str.upper()` on one character (ASCII fragment):
maps `a`-`z` to `A`-`Z`, leaves everything else unchanged. -/
def pyUpperChar (c : Char) : Char :=
  if 97 ≤ c.toNat ∧ c.toNat ≤ 122 then Char.ofNat (c.toNat - 32) else c

/-- Embeds Python `str.upper()` (ASCII fragment). -/
def pyUpper (s : Str) : Str := s.map pyUpperChar

/-! ## Key validation (validate_ccc, validate_ss) -/

/-- Character class `[A-Z]`. -/
def isUpperAlpha (c : Char) : Bool := 65 ≤ c.toNat && c.toNat ≤ 90

/-- Character class `\d` (ASCII fragment). -/
def isAsciiDigit (c : Char) : Bool := 48 ≤ c.toNat && c.toNat ≤ 57

/-- Anchored match of `[A-Z]{3}` against the whole string. -/
def matchesCCCCore (s : Str) : Bool := s.length = 3 && s.all isUpperAlpha

/-- Anchored match of `\d{2}` against the whole string. -/
def matchesSSCore (s : Str) : Bool := s.length = 2 && s.all isAsciiDigit

/-- Python `re` semantics of `bool(re.match(r"^CORE$", s))`: the anchor `$`
also matches just before a single trailing newline. -/
def reFullMatch (core : Str → Bool) (s : Str) : Bool :=
  core s ||
    (match s.getLast? with
     | some c => c = '\n' && core s.dropLast
     | none => false)

/-- Embeds `validate_ccc`: `bool(re.match(r"^[A-Z]{3}$", value))`. -/
def validate_ccc (s : Str) : Bool := reFullMatch matchesCCCCore s

/-- Embeds `validate_ss`: `bool(re.match(r"^\d{2}$", value))`. -/
def validate_ss (s : Str) : Bool := reFullMatch matchesSSCore s

/-! ## Lexicographic string order (Python `<` / SQL binary collation) -/

/-- Code-point comparison of two characters. -/
def charLt (a b : Char) : Bool := a.toNat < b.toNat

/-- Lexicographic (code-point) strict order on strings, as used by
`order_by("-IPN")` under a binary collation and by Python `<`. -/
def lexLt : Str → Str → Bool
  | [], [] => false
  | [], _ :: _ => true
  | _ :: _, [] => false
  | a :: as, b :: bs => if a = b then lexLt as bs else charLt a b

/-- Non-strict lexicographic order. -/
def lexLe (a b : Str) : Prop := lexLt a b = true ∨ a = b

/-- Maximal element of a list of strings under `lexLt`; embeds
`order_by("-IPN").first()`. -/
def lexMax? : List Str → Option Str
  | [] => none
  | s :: rest =>
    match lexMax? rest with
    | none => some s
    | some m => some (if lexLt m s then s else m)

/-! ## Python int() parsing -/

/-- Numeric value of an ASCII digit character. -/
def digitVal (c : Char) : Nat := c.toNat - 48

/-- Continuation of `int()` digit parsing: digits, with single underscores
allowed between digits (Python 3.6+ literal grammar). -/
def pyIntDigitsRest : Str → Nat → Option Nat
  | [], acc => some acc
  | [c], acc => if isAsciiDigit c then some (acc * 10 + digitVal c) else none
  | c :: d :: ds, acc =>
    if isAsciiDigit c then pyIntDigitsRest (d :: ds) (acc * 10 + digitVal c)
    else if c = '_' then
      if isAsciiDigit d then pyIntDigitsRest ds (acc * 10 + digitVal d) else none
    else none

/-- Digit-sequence part of Python `int()`: at least one digit, underscores
only between digits. -/
def pyIntDigits : Str → Option Nat
  | [] => none
  | c :: cs => if isAsciiDigit c then pyIntDigitsRest cs (digitVal c) else none

/-- Embeds Python `int(s)` on strings (ASCII fragment): surrounding
whitespace stripped, optional sign, then digits with optional single
underscores between digits; `none` models `ValueError`. -/
def pyInt (s : Str) : Option Int :=
  match pyStrip s with
  | [] => none
  | c :: rest =>
    if c = '+' then (pyIntDigits rest).map (fun n => (n : Int))
    else if c = '-' then (pyIntDigits rest).map (fun n => -(n : Int))
    else (pyIntDigits (c :: rest)).map (fun n => (n : Int))

/-! ## Decimal formatting (f-string `{n:05d}`) -/

/-- Character for a decimal digit value. -/
def digitChar (d : Nat) : Char := Char.ofNat (48 + d)

/-- Little-endian decimal digits of a positive number, with fuel for
structural recursion. -/
def natDigitsAux : Nat → Nat → Str
  | 0, _ => []
  | fuel + 1, n => if n = 0 then [] else digitChar (n % 10) :: natDigitsAux fuel (n / 10)

/-- Decimal representation (most significant digit first) of a natural. -/
def decDigits (n : Nat) : Str := if n = 0 then ['0'] else (natDigitsAux n n).reverse

/-- Left-pad a string with `'0'` to width `w`. -/
def padZeroTo (w : Nat) (s : Str) : Str := List.replicate (w - s.length) '0' ++ s

/-- Embeds the f-string conversion `f"{n:05d}"`: decimal representation
zero-padded to width 5, the sign (for negative values) counting towards
the width. -/
def pyFormat05 (n : Int) : Str :=
  if n < 0 then '-' :: padZeroTo 4 (decDigits n.natAbs) else padZeroTo 5 (decDigits n.toNat)

/-! ## compute_next_sapn -/

/-- Embeds `prefix = f"{SAPN_PREFIX}-{ccc}-{ss}-"`. -/
def sapnPre (ccc ss : Str) : Str :=
  sapnPrefixStr ++ ('-' :: ccc) ++ ('-' :: ss) ++ ['-']

/-- Embeds the `next_num` computation of `compute_next_sapn` (lines 65-81):
the lexicographically maximal stored identifier starting with `pre` is
found; its suffix after the prefix is parsed with `int()`; a parse failure
or an empty bucket yields 1, a parsed value `n` yields `n + 1`. -/
def sapnNext (store : List Str) (pre : Str) : Int :=
  match lexMax? (store.filter (fun s => pre.isPrefixOf s)) with
  | none => 1
  | some latest =>
    match pyInt (latest.drop pre.length) with
    | some n => n + 1
    | none => 1

/-- Embeds `compute_next_sapn(ccc, ss)` over an explicit record store:
computes the next sequence value, raises (models as `.error`, carrying the
bucket key as the exception message does) if it exceeds
`SAPN_MAX_SEQUENCE`, otherwise returns `f"{prefix}{next_num:05d}"`. -/
def compute_next_sapn (store : List Str) (ccc ss : Str) : Except (Str × Str) Str :=
  let pre := sapnPre ccc ss
  let next := sapnNext store pre
  if next > SAPN_MAX_SEQUENCE then .error (ccc, ss) else .ok (pre ++ pyFormat05 next)

/-! ## generate_sapn_for_part -/

/-- Embeds `generate_sapn_for_part(part)`: the two part parameters are given
as the values read from the attribute store (`none` models an absent
parameter), the record store as the list of existing identifiers.  Follows
the source exactly: missing/empty parameter, failed validation (after
strip/upper), or an overflow `ValueError` from `compute_next_sapn` all
yield `none`. -/
def generate_sapn_for_part (cccRaw ssRaw : Option Str) (store : List Str) : Option Str :=
  match cccRaw with
  | none => none
  | some c0 =>
    if c0 = [] then none
    else if !validate_ccc (pyUpper (pyStrip c0)) then none
    else
      match ssRaw with
      | none => none
      | some s0 =>
        if s0 = [] then none
        else if !validate_ss (pyStrip s0) then none
        else
          match compute_next_sapn store (pyUpper (pyStrip c0)) (pyStrip s0) with
          | .ok ipn => some ipn
          | .error _ => none

/-- Key Validator contract `normalize(rawCategory, rawSubcategory)`: the
validation steps of `generate_sapn_for_part` in isolation (emptiness
guard, strip, uppercase the category, regex validation), yielding the
normalized bucket key. -/
def normalize (rawC rawS : Str) : Option (Str × Str) :=
  if rawC = [] then none
  else if !validate_ccc (pyUpper (pyStrip rawC)) then none
  else if rawS = [] then none
  else if !validate_ss (pyStrip rawS) then none
  else some (pyUpper (pyStrip rawC), pyStrip rawS)

/-! ## Allocation Coordinator (SAPNGeneratorPlugin.process_event)

One call of `process_event` performs unsynchronized reads of the attribute
store and the record store, interleaved with other writers; only the
`transaction.atomic` block is a synchronization point.  The model therefore
parameterizes each attempt of the retry loop by the snapshots that its
reads observe: the two parameter reads and the record-store read performed
by `generate_sapn_for_part` before the transaction, the part's refreshed
`IPN` inside the transaction, the two in-transaction parameter re-reads,
the in-transaction record-store read, and whether `part.save()` raises an
`IntegrityError` (uniqueness conflict). -/

/-- Snapshots observed by one iteration of the retry loop of
`process_event`. -/
structure AttemptEnv where
  cccOutside : Option Str
  ssOutside : Option Str
  storeOutside : List Str
  ipnAtRefresh : Str
  cccInside : Option Str
  ssInside : Option Str
  storeInside : List Str
  saveConflict : Bool

/-- Terminal outcomes of `process_event` (the source communicates them via
early `return` plus log lines; the constructors name the respective exit
points). -/
inductive Outcome where
  | assigned (ipn : Str)
  | skippedNotFound
  | skippedHasIPN
  | skippedGenFailed
  | skippedRace
  | failedOverflow
  | failedRetries
deriving DecidableEq

/-- Python truthiness of an optional string (`if ccc and ss:`). -/
def truthy : Option Str → Bool
  | none => false
  | some s => !s.isEmpty

/-- Embeds lines 249-257 of `process_event`: inside the transaction the two
raw parameters are re-read; if both are truthy the SAPN is recomputed from
their stripped (and, for the category, uppercased) values — without
re-validation — otherwise the previously computed `new_ipn` is kept. -/
def insideRecompute (env : AttemptEnv) (ipn0 : Str) : Except (Str × Str) Str :=
  if truthy env.cccInside && truthy env.ssInside then
    compute_next_sapn env.storeInside
      (pyUpper (pyStrip (env.cccInside.getD [])))
      (pyStrip (env.ssInside.getD []))
  else .ok ipn0

/-- One iteration of the retry loop of `process_event` (lines 232-281):
`some o` is a terminal outcome (an early `return`, or a committed
assignment, or an in-transaction overflow `ValueError`), `none` is an
`IntegrityError` that sends the loop into the next attempt. -/
def attemptStep (env : AttemptEnv) : Option Outcome :=
  match generate_sapn_for_part env.cccOutside env.ssOutside env.storeOutside with
  | none => some .skippedGenFailed
  | some ipn0 =>
    if env.ipnAtRefresh ≠ [] then some .skippedRace
    else
      match insideRecompute env ipn0 with
      | .error _ => some .failedOverflow
      | .ok ipn => if env.saveConflict then none else some (.assigned ipn)

/-- The retry loop `for attempt in range(1, SAPN_RETRY_ATTEMPTS + 1)`:
`k` attempts have already been made, `fuel` remain; returns the outcome
together with the total number of attempts started. -/
def runAlloc (envs : Nat → AttemptEnv) : Nat → Nat → Outcome × Nat
  | k, 0 => (.failedRetries, k)
  | k, fuel + 1 =>
    match attemptStep (envs k) with
    | some o => (o, k + 1)
    | none => runAlloc envs (k + 1) fuel

/-- Embeds `process_event` for a Part event (settings and model filtering
elided): part lookup (`partFound`), the `if part.IPN:` guard on the
fetched value `ipn0`, then the retry loop. -/
def process_event (partFound : Bool) (ipn0 : Str) (envs : Nat → AttemptEnv) : Outcome × Nat :=
  if !partFound then (.skippedNotFound, 0)
  else if ipn0 ≠ [] then (.skippedHasIPN, 0)
  else runAlloc envs 0 SAPN_RETRY_ATTEMPTS

/-! ## Interleaving model of concurrent allocation

Multiple `process_event` calls for distinct entities run concurrently
against the shared record store (spec section 5).  The reads that produce
a caller's candidate identifier (`generate_sapn_for_part` before the
transaction, and the re-read/recompute whose store read is not
synchronized with other writers) may observe a stale store; the atomic
conditional write — `part.save()` under the record store's uniqueness
constraint, the spec's `conditionalAssign` — is the single
synchronization point: it commits only if the candidate value is still
unused and otherwise raises the `IntegrityError` that sends the retry
loop into its next attempt, bounded by `SAPN_RETRY_ATTEMPTS`.

The model makes every interleaving explicit.  Each caller is a state
machine; a schedule is the list of caller indices in the order in which
their pending actions hit the store.  A pending action is either the
candidate computation (a read of the store at that moment) or the
conditional write of the previously computed candidate. -/

/-- One allocator's state: the candidate produced by its latest store
read (`none` when the next action is a fresh computation), the number of
attempts already consumed by write conflicts, and the terminal outcome
once reached. -/
structure CallerState where
  candidate : Option Str
  attempts : Nat
  outcome : Option Outcome
deriving DecidableEq

/-- Shared state of a concurrent run: the record store (the existing
identifiers), the callers, and the commit log — the assigned identifiers
in commit order. -/
structure GlobalState where
  store : List Str
  callers : List CallerState
  log : List Str
deriving DecidableEq

/-- A fresh caller, about to compute its first candidate. -/
def freshCaller : CallerState := ⟨none, 0, none⟩

/-- Initial state of `n` concurrent allocations for `n` distinct entities
in one bucket with no pre-existing identifiers. -/
def initState (n : Nat) : GlobalState := ⟨[], List.replicate n freshCaller, []⟩

/-- One scheduled action of a caller against the store.  A terminal
caller does nothing.  A caller without a candidate computes one from the
current store via `compute_next_sapn`; an overflow `ValueError` is
terminal (lines 275-278).  A caller with a candidate attempts the
conditional write: if the candidate is already stored, the uniqueness
constraint raises `IntegrityError` — the attempt is consumed, and the
`SAPN_RETRY_ATTEMPTS`-th conflict exhausts the loop (lines 264-274);
otherwise the write commits, appending the identifier to the store and to
the commit log. -/
def stepCaller (ccc ss : Str) (store log : List Str) (cs : CallerState) :
    (List Str × List Str) × CallerState :=
  match cs.outcome with
  | some _ => ((store, log), cs)
  | none =>
    match cs.candidate with
    | none =>
      match compute_next_sapn store ccc ss with
      | .error _ => ((store, log), { cs with outcome := some .failedOverflow })
      | .ok c => ((store, log), { cs with candidate := some c })
    | some c =>
      if c ∈ store then
        if cs.attempts + 1 = SAPN_RETRY_ATTEMPTS then
          ((store, log), { cs with candidate := none, attempts := cs.attempts + 1, outcome := some .failedRetries })
        else
          ((store, log), { cs with candidate := none, attempts := cs.attempts + 1 })
      else
        ((c :: store, log ++ [c]),
         { cs with candidate := none, outcome := some (.assigned c) })

/-- Execute the pending action of caller `i`; an out-of-range index is a
no-op. -/
def stepAt (ccc ss : Str) (i : Nat) (g : GlobalState) : GlobalState :=
  match g.callers[i]? with
  | none => g
  | some cs =>
    ⟨(stepCaller ccc ss g.store g.log cs).1.1,
     g.callers.set i (stepCaller ccc ss g.store g.log cs).2,
     (stepCaller ccc ss g.store g.log cs).1.2⟩

/-- Run a schedule: the callers' actions interleave in the given order. -/
def runSched (ccc ss : Str) : List Nat → GlobalState → GlobalState
  | [], g => g
  | i :: rest, g => runSched ccc ss rest (stepAt ccc ss i g)

/-- The conflict-free serial schedule: each caller computes its candidate
and immediately commits it before the next caller starts. -/
def serialSched (n : Nat) : List Nat := (List.range n).flatMap (fun i => [i, i])

/-- Whether a caller ended with an assigned identifier. -/
def isAssigned (cs : CallerState) : Bool :=
  match cs.outcome with
  | some (.assigned _) => true
  | _ => false

/-- Number of callers that were assigned an identifier. -/
def countAssigned (callers : List CallerState) : Nat := callers.countP isAssigned

/-! ## Denotation of digit strings -/

/-- Numeric value denoted by a digit string (most significant digit
first). -/
def numVal : Str → Nat
  | [] => 0
  | c :: cs => digitVal c * 10 ^ cs.length + numVal cs

/-- All characters of the string are ASCII digits. -/
def allDigits (s : Str) : Prop := ∀ c ∈ s, isAsciiDigit c = true

/-- Numeric value of a little-endian digit list. -/
def valLE : Str → Nat
  | [] => 0
  | c :: cs => digitVal c + 10 * valLE cs

/-! ## Digit character lemmas -/

theorem digitChar_toNat {d : Nat} (h : d < 10) : (digitChar d).toNat = 48 + d := by
  interval_cases d <;> decide

theorem isAsciiDigit_digitChar {d : Nat} (h : d < 10) : isAsciiDigit (digitChar d) = true := by
  interval_cases d <;> decide

theorem digitVal_digitChar {d : Nat} (h : d < 10) : digitVal (digitChar d) = d := by
  interval_cases d <;> decide

theorem isAsciiDigit_iff {c : Char} : isAsciiDigit c = true ↔ 48 ≤ c.toNat ∧ c.toNat ≤ 57 := by
  simp [isAsciiDigit]

theorem digitVal_le_nine {c : Char} (h : isAsciiDigit c = true) : digitVal c ≤ 9 := by
  have := isAsciiDigit_iff.mp h
  unfold digitVal
  omega

theorem toNat_inj {a b : Char} (h : a.toNat = b.toNat) : a = b := by
  apply Char.ext
  exact UInt32.ext h

theorem charLt_iff_digitVal {a b : Char} (ha : isAsciiDigit a = true)
    (hb : isAsciiDigit b = true) : charLt a b = true ↔ digitVal a < digitVal b := by
  have h1 := isAsciiDigit_iff.mp ha
  have h2 := isAsciiDigit_iff.mp hb
  simp [charLt, digitVal]
  omega

theorem digit_eq_iff_digitVal {a b : Char} (ha : isAsciiDigit a = true)
    (hb : isAsciiDigit b = true) : a = b ↔ digitVal a = digitVal b := by
  have h1 := isAsciiDigit_iff.mp ha
  have h2 := isAsciiDigit_iff.mp hb
  constructor
  · intro h; rw [h]
  · intro h
    apply toNat_inj
    unfold digitVal at h
    omega

/-! ## numVal lemmas -/

theorem numVal_lt {s : Str} (h : allDigits s) : numVal s < 10 ^ s.length := by
  induction s with
  | nil => simp [numVal]
  | cons c cs ih =>
    have hc : digitVal c ≤ 9 := digitVal_le_nine (h c (by simp))
    have hcs : numVal cs < 10 ^ cs.length := ih (fun x hx => h x (by simp [hx]))
    have hexp : 10 ^ (c :: cs).length = 10 * 10 ^ cs.length := by
      simp [List.length_cons, pow_succ]
      ring
    rw [numVal, hexp]
    have h9 : digitVal c * 10 ^ cs.length ≤ 9 * 10 ^ cs.length :=
      Nat.mul_le_mul_right _ hc
    have h10 : 9 * 10 ^ cs.length + 10 ^ cs.length = 10 * 10 ^ cs.length := by ring
    omega

theorem numVal_head_lt {c d : Char} {cs ds : Str} (hlen : cs.length = ds.length)
    (hc : allDigits (c :: cs)) (_hd : allDigits (d :: ds))
    (h : digitVal c < digitVal d) : numVal (c :: cs) < numVal (d :: ds) := by
  have hcs : numVal cs < 10 ^ cs.length := numVal_lt (fun x hx => hc x (by simp [hx]))
  have hmul : (digitVal c + 1) * 10 ^ cs.length ≤ digitVal d * 10 ^ cs.length :=
    Nat.mul_le_mul_right _ h
  have hsucc : (digitVal c + 1) * 10 ^ cs.length
      = digitVal c * 10 ^ cs.length + 10 ^ cs.length := by ring
  rw [numVal, numVal, ← hlen]
  omega

theorem lexLt_iff_numVal {s t : Str} (hlen : s.length = t.length)
    (hs : allDigits s) (ht : allDigits t) :
    lexLt s t = true ↔ numVal s < numVal t := by
  induction s generalizing t with
  | nil =>
    cases t with
    | nil => simp [lexLt, numVal]
    | cons d ds => simp at hlen
  | cons c cs ih =>
    cases t with
    | nil => simp at hlen
    | cons d ds =>
      have hlen2 : cs.length = ds.length := by simpa using hlen
      have hcd : isAsciiDigit c = true := hs c (by simp)
      have hdd : isAsciiDigit d = true := ht d (by simp)
      by_cases hcd_eq : c = d
      · subst hcd_eq
        rw [lexLt, if_pos rfl]
        rw [ih hlen2 (fun x hx => hs x (by simp [hx])) (fun x hx => ht x (by simp [hx]))]
        rw [numVal, numVal, hlen2]
        omega
      · rw [lexLt, if_neg hcd_eq]
        rw [charLt_iff_digitVal hcd hdd]
        constructor
        · intro h
          exact numVal_head_lt hlen2 hs ht h
        · intro h
          by_contra hno
          push_neg at hno
          have : digitVal d < digitVal c := by
            rcases Nat.lt_trichotomy (digitVal c) (digitVal d) with h1 | h1 | h1
            · omega
            · exact absurd ((digit_eq_iff_digitVal hcd hdd).mpr h1) hcd_eq
            · exact h1
          have := numVal_head_lt hlen2.symm ht hs this
          omega

theorem lexLt_append_left (p : Str) (a b : Str) : lexLt (p ++ a) (p ++ b) = lexLt a b := by
  induction p with
  | nil => rfl
  | cons c cs ih => simp [lexLt, ih]

/-! ## Correctness of decimal formatting -/

theorem natDigitsAux_valLE : ∀ fuel n, n ≤ fuel →
    valLE (natDigitsAux fuel n) = n ∧ allDigits (natDigitsAux fuel n) := by
  intro fuel
  induction fuel with
  | zero =>
    intro n hn
    have : n = 0 := by omega
    subst this
    exact ⟨rfl, by intro c hc; simp [natDigitsAux] at hc⟩
  | succ fuel ih =>
    intro n hn
    by_cases h0 : n = 0
    · subst h0
      exact ⟨rfl, by intro c hc; simp [natDigitsAux] at hc⟩
    · have hdiv : n / 10 ≤ fuel := by
        have := Nat.div_lt_self (Nat.pos_of_ne_zero h0) (by omega : 1 < 10)
        omega
      obtain ⟨ihv, ihd⟩ := ih (n / 10) hdiv
      have hmod : n % 10 < 10 := Nat.mod_lt _ (by omega)
      constructor
      · rw [natDigitsAux, if_neg h0, valLE, digitVal_digitChar hmod, ihv]
        omega
      · intro c hc
        rw [natDigitsAux, if_neg h0] at hc
        rcases List.mem_cons.mp hc with h | h
        · rw [h]; exact isAsciiDigit_digitChar hmod
        · exact ihd c h

theorem natDigitsAux_length : ∀ fuel n k, n ≤ fuel → n < 10 ^ k →
    (natDigitsAux fuel n).length ≤ k := by
  intro fuel
  induction fuel with
  | zero =>
    intro n k hn _
    have : n = 0 := by omega
    subst this
    simp [natDigitsAux]
  | succ fuel ih =>
    intro n k hn hk
    by_cases h0 : n = 0
    · subst h0; simp [natDigitsAux]
    · have hkpos : 0 < k := by
        by_contra hc
        push_neg at hc
        interval_cases k
        simp at hk
        omega
      have hdiv : n / 10 ≤ fuel := by
        have := Nat.div_lt_self (Nat.pos_of_ne_zero h0) (by omega : 1 < 10)
        omega
      have hdivk : n / 10 < 10 ^ (k - 1) := by
        rw [Nat.div_lt_iff_lt_mul (by omega : 0 < 10)]
        calc n < 10 ^ k := hk
        _ = 10 ^ (k - 1) * 10 := by
          rw [← pow_succ]
          congr 1
          omega
      have := ih (n / 10) (k - 1) hdiv hdivk
      rw [natDigitsAux, if_neg h0]
      simp only [List.length_cons]
      omega

theorem numVal_append_digit (xs : Str) (c : Char) :
    numVal (xs ++ [c]) = numVal xs * 10 + digitVal c := by
  induction xs with
  | nil => simp [numVal]
  | cons x xs ih =>
    simp only [List.cons_append, numVal, ih, List.append_eq, List.length_append,
      List.length_cons, List.length_nil]
    ring

theorem numVal_reverse (l : Str) : numVal l.reverse = valLE l := by
  induction l with
  | nil => rfl
  | cons c cs ih =>
    rw [List.reverse_cons, numVal_append_digit, ih, valLE]
    ring

theorem decDigits_numVal (n : Nat) : numVal (decDigits n) = n := by
  by_cases h0 : n = 0
  · subst h0; rfl
  · rw [decDigits, if_neg h0, numVal_reverse]
    exact (natDigitsAux_valLE n n (le_refl n)).1

theorem decDigits_allDigits (n : Nat) : allDigits (decDigits n) := by
  by_cases h0 : n = 0
  · subst h0
    intro c hc
    simp [decDigits] at hc
    rw [hc]; decide
  · intro c hc
    rw [decDigits, if_neg h0, List.mem_reverse] at hc
    exact (natDigitsAux_valLE n n (le_refl n)).2 c hc

theorem decDigits_length_le {n k : Nat} (hk : 0 < k) (h : n < 10 ^ k) :
    (decDigits n).length ≤ k := by
  by_cases h0 : n = 0
  · subst h0; simpa [decDigits] using hk
  · rw [decDigits, if_neg h0, List.length_reverse]
    exact natDigitsAux_length n n k (le_refl n) h

theorem decDigits_ne_nil (n : Nat) : decDigits n ≠ [] := by
  by_cases h0 : n = 0
  · subst h0; simp [decDigits]
  · rw [decDigits, if_neg h0]
    intro hc
    have := (natDigitsAux_valLE n n (le_refl n)).1
    rw [List.reverse_eq_nil_iff.mp hc] at this
    exact h0 this.symm

/-! ## Padded formatting lemmas -/

theorem numVal_replicate_zero (k : Nat) (s : Str) :
    numVal (List.replicate k '0' ++ s) = numVal s := by
  induction k with
  | zero => simp
  | succ k ih =>
    rw [List.replicate_succ, List.cons_append, numVal, ih]
    have : digitVal '0' = 0 := by decide
    rw [this]
    omega

theorem padZeroTo_allDigits {w : Nat} {s : Str} (h : allDigits s) :
    allDigits (padZeroTo w s) := by
  intro c hc
  rw [padZeroTo, List.mem_append] at hc
  rcases hc with hc | hc
  · rw [List.eq_of_mem_replicate hc]; decide
  · exact h c hc

theorem padZeroTo_numVal (w : Nat) (s : Str) : numVal (padZeroTo w s) = numVal s :=
  numVal_replicate_zero _ s

theorem padZeroTo_length {w : Nat} {s : Str} (h : s.length ≤ w) :
    (padZeroTo w s).length = w := by
  rw [padZeroTo, List.length_append, List.length_replicate]
  omega

/-- The canonical 5-digit rendering of a sequence value. -/
def pad5 (n : Nat) : Str := padZeroTo 5 (decDigits n)

theorem pad5_length {n : Nat} (h : n ≤ 99999) : (pad5 n).length = 5 :=
  padZeroTo_length (decDigits_length_le (by omega) (by omega))

theorem pad5_allDigits (n : Nat) : allDigits (pad5 n) :=
  padZeroTo_allDigits (decDigits_allDigits n)

theorem pad5_numVal (n : Nat) : numVal (pad5 n) = n := by
  rw [pad5, padZeroTo_numVal, decDigits_numVal]

theorem pad5_inj {m n : Nat} (h : pad5 m = pad5 n) : m = n := by
  have := pad5_numVal m
  rw [h, pad5_numVal] at this
  exact this.symm

theorem pad5_ne_nil (n : Nat) : pad5 n ≠ [] := by
  intro hc
  have := congrArg List.length hc
  rw [pad5, padZeroTo, List.length_append] at this
  have h2 := decDigits_ne_nil n
  cases hd : decDigits n with
  | nil => exact h2 hd
  | cons a as => rw [hd] at this; simp at this

theorem pyFormat05_nonneg {n : Int} (h : 0 ≤ n) : pyFormat05 n = pad5 n.toNat := by
  rw [pyFormat05, if_neg (by omega)]
  rfl

theorem lexLt_pad5 {m n : Nat} (hm : m ≤ 99999) (hn : n ≤ 99999) :
    lexLt (pad5 m) (pad5 n) = true ↔ m < n := by
  rw [lexLt_iff_numVal (by rw [pad5_length hm, pad5_length hn])
    (pad5_allDigits m) (pad5_allDigits n), pad5_numVal, pad5_numVal]

/-! ## lexMax? lemmas -/

theorem lexMax?_mem : ∀ {l : List Str} {m : Str}, lexMax? l = some m → m ∈ l := by
  intro l
  induction l with
  | nil => intro m h; exact absurd h (by simp [lexMax?])
  | cons s rest ih =>
    intro m h
    rw [lexMax?] at h
    cases hrest : lexMax? rest with
    | none => rw [hrest] at h; simp at h; simp [h]
    | some x =>
      rw [hrest] at h
      simp at h
      by_cases hlt : lexLt x s = true
      · rw [if_pos hlt] at h; simp [h]
      · rw [if_neg hlt] at h
        right
        rw [← h]
        exact ih hrest

theorem lexMax?_cons_max {s : Str} {rest : List Str}
    (h : ∀ x ∈ rest, lexLt x s = true) : lexMax? (s :: rest) = some s := by
  rw [lexMax?]
  cases hrest : lexMax? rest with
  | none => rfl
  | some m =>
    have hm : m ∈ rest := lexMax?_mem hrest
    simp [h m hm]

/-! ## pyStrip and pyInt on clean digit strings -/

theorem dropWhile_of_all_neg {p : Char → Bool} : ∀ {l : Str},
    (∀ c ∈ l, p c = false) → l.dropWhile p = l := by
  intro l h
  cases l with
  | nil => rfl
  | cons c cs => rw [List.dropWhile_cons, h c (by simp)]; simp

theorem pyStrip_of_no_space {s : Str} (h : ∀ c ∈ s, isAsciiSpace c = false) :
    pyStrip s = s := by
  rw [pyStrip, pyStripLeft, dropWhile_of_all_neg h, pyStripRight,
    dropWhile_of_all_neg (fun c hc => h c (List.mem_reverse.mp hc)), List.reverse_reverse]

theorem digit_not_space {c : Char} (h : isAsciiDigit c = true) : isAsciiSpace c = false := by
  have hb := isAsciiDigit_iff.mp h
  simp only [isAsciiSpace, Bool.or_eq_false_iff, decide_eq_false_iff_not]
  refine ⟨⟨⟨⟨⟨?_, ?_⟩, ?_⟩, ?_⟩, ?_⟩, ?_⟩ <;>
    (intro hc; rw [hc] at hb; revert hb; decide)

theorem digit_ne_plus {c : Char} (h : isAsciiDigit c = true) : c ≠ '+' := by
  intro hc
  rw [hc] at h
  exact absurd h (by decide)

theorem digit_ne_minus {c : Char} (h : isAsciiDigit c = true) : c ≠ '-' := by
  intro hc
  rw [hc] at h
  exact absurd h (by decide)

theorem pyIntDigitsRest_spec : ∀ {cs : Str}, allDigits cs → ∀ acc,
    pyIntDigitsRest cs acc = some (acc * 10 ^ cs.length + numVal cs) := by
  intro cs
  induction cs with
  | nil => intro _ acc; simp [pyIntDigitsRest, numVal]
  | cons c cs ih =>
    intro h acc
    have hc : isAsciiDigit c = true := h c (by simp)
    cases cs with
    | nil =>
      rw [pyIntDigitsRest, if_pos hc]
      congr 1
      simp only [numVal, List.length_cons, List.length_nil]
      ring
    | cons d ds =>
      rw [pyIntDigitsRest, if_pos hc,
        ih (fun x hx => h x (by simp [hx])) (acc * 10 + digitVal c)]
      congr 1
      simp only [List.length_cons, numVal]
      ring

theorem pyIntDigits_spec {s : Str} (hd : allDigits s) (hne : s ≠ []) :
    pyIntDigits s = some (numVal s) := by
  cases s with
  | nil => exact absurd rfl hne
  | cons c cs =>
    have hc : isAsciiDigit c = true := hd c (by simp)
    rw [pyIntDigits, if_pos hc, pyIntDigitsRest_spec (fun x hx => hd x (by simp [hx]))]
    congr 1

theorem pyInt_digits {s : Str} (hd : allDigits s) (hne : s ≠ []) :
    pyInt s = some ((numVal s : Nat) : Int) := by
  have hstrip : pyStrip s = s :=
    pyStrip_of_no_space (fun c hc => digit_not_space (hd c hc))
  cases s with
  | nil => exact absurd rfl hne
  | cons c cs =>
    have hc : isAsciiDigit c = true := hd c (by simp)
    rw [pyInt]
    rw [hstrip]
    simp only [if_neg (digit_ne_plus hc), if_neg (digit_ne_minus hc)]
    rw [pyIntDigits_spec hd hne]
    rfl

theorem pyInt_pad5 (n : Nat) : pyInt (pad5 n) = some (n : Int) := by
  rw [pyInt_digits (pad5_allDigits n) (pad5_ne_nil n), pad5_numVal]

/-! ## Stripping removes trailing whitespace: the `$`-newline quirk of the
validators cannot fire on stripped (and then uppercased) input -/

theorem head?_dropWhile_not {p : Char → Bool} : ∀ {l : Str} {c : Char},
    (l.dropWhile p).head? = some c → p c = false := by
  intro l
  induction l with
  | nil => intro c h; simp [List.dropWhile] at h
  | cons x xs ih =>
    intro c h
    rw [List.dropWhile_cons] at h
    by_cases hx : p x = true
    · rw [if_pos hx] at h
      exact ih h
    · rw [if_neg hx] at h
      simp at h
      rw [← h]
      exact Bool.not_eq_true _ |>.mp hx

theorem getLast?_pyStripRight_not_space {s : Str} {c : Char}
    (h : (pyStripRight s).getLast? = some c) : isAsciiSpace c = false := by
  rw [pyStripRight, List.getLast?_reverse] at h
  exact head?_dropWhile_not h

theorem getLast?_pyStrip_not_space {s : Str} {c : Char}
    (h : (pyStrip s).getLast? = some c) : isAsciiSpace c = false :=
  getLast?_pyStripRight_not_space h

theorem pyUpperChar_eq_newline {c : Char} (h : pyUpperChar c = '\n') : c = '\n' := by
  rw [pyUpperChar] at h
  split at h
  · exfalso
    rename_i hc
    have hb : 65 ≤ c.toNat - 32 ∧ c.toNat - 32 ≤ 90 := by omega
    revert h
    generalize c.toNat - 32 = k at hb
    obtain ⟨hb1, hb2⟩ := hb
    interval_cases k <;> decide
  · exact h

theorem reFullMatch_of_no_newline {core : Str → Bool} {s : Str}
    (h : s.getLast? ≠ some '\n') : reFullMatch core s = core s := by
  rw [reFullMatch]
  cases hl : s.getLast? with
  | none => simp
  | some c =>
    have hc : c ≠ '\n' := fun hc => h (by rw [hl, hc])
    simp [hc]

theorem validate_ccc_after_normalize (s : Str) :
    validate_ccc (pyUpper (pyStrip s)) = matchesCCCCore (pyUpper (pyStrip s)) := by
  apply reFullMatch_of_no_newline
  intro hlast
  rw [pyUpper, List.getLast?_map] at hlast
  cases hl : (pyStrip s).getLast? with
  | none => rw [hl] at hlast; simp at hlast
  | some c =>
    rw [hl] at hlast
    simp at hlast
    have : c = '\n' := pyUpperChar_eq_newline hlast
    rw [this] at hl
    have := getLast?_pyStrip_not_space hl
    exact absurd this (by decide)

theorem validate_ss_after_normalize (s : Str) :
    validate_ss (pyStrip s) = matchesSSCore (pyStrip s) := by
  apply reFullMatch_of_no_newline
  intro hlast
  have := getLast?_pyStrip_not_space hlast
  exact absurd this (by decide)

/-! ## Stores consisting of generated identifiers of one bucket -/

theorem compute_next_sapn_eq (store : List Str) (ccc ss : Str) :
    compute_next_sapn store ccc ss =
      if sapnNext store (sapnPre ccc ss) > SAPN_MAX_SEQUENCE then .error (ccc, ss)
      else .ok (sapnPre ccc ss ++ pyFormat05 (sapnNext store (sapnPre ccc ss))) := rfl

/-- The store after `k` serial assignments in one bucket: identifiers for
sequences `1..k`, most recent first. -/
def revIds (pre : Str) (k : Nat) : List Str :=
  ((List.range' 1 k).map (fun j => pre ++ pad5 j)).reverse

theorem revIds_zero (pre : Str) : revIds pre 0 = [] := rfl

theorem revIds_succ (pre : Str) (k : Nat) :
    revIds pre (k + 1) = (pre ++ pad5 (k + 1)) :: revIds pre k := by
  rw [revIds, List.range'_1_concat, List.map_append, List.reverse_append]
  have h1 : 1 + k = k + 1 := by omega
  rw [h1]
  rfl

theorem mem_revIds {pre x : Str} {k : Nat} (h : x ∈ revIds pre k) :
    ∃ j, 1 ≤ j ∧ j ≤ k ∧ x = pre ++ pad5 j := by
  rw [revIds, List.mem_reverse, List.mem_map] at h
  obtain ⟨j, hj, hx⟩ := h
  rw [List.mem_range'_1] at hj
  exact ⟨j, hj.1, by omega, hx.symm⟩

theorem filter_revIds (pre : Str) (k : Nat) :
    (revIds pre k).filter (fun s => pre.isPrefixOf s) = revIds pre k := by
  rw [List.filter_eq_self]
  intro x hx
  obtain ⟨j, _, _, hx⟩ := mem_revIds hx
  rw [hx]
  exact List.isPrefixOf_iff_prefix.mpr (List.prefix_append pre (pad5 j))

theorem sapnNext_of_none {store : List Str} {pre : Str}
    (h : lexMax? (store.filter (fun s => pre.isPrefixOf s)) = none) :
    sapnNext store pre = 1 := by
  rw [sapnNext, h]

theorem sapnNext_of_max {store : List Str} {pre latest : Str}
    (h : lexMax? (store.filter (fun s => pre.isPrefixOf s)) = some latest) :
    sapnNext store pre =
      match pyInt (latest.drop pre.length) with
      | some n => n + 1
      | none => 1 := by
  rw [sapnNext, h]

theorem sapnNext_revIds (pre : Str) (k : Nat) (hk : k ≤ 99999) :
    sapnNext (revIds pre k) pre = (k : Int) + 1 := by
  cases k with
  | zero => rfl
  | succ j =>
    have hmax : lexMax? ((revIds pre (j + 1)).filter (fun s => pre.isPrefixOf s))
        = some (pre ++ pad5 (j + 1)) := by
      rw [filter_revIds, revIds_succ]
      apply lexMax?_cons_max
      intro x hx
      obtain ⟨i, hi1, hi2, hx⟩ := mem_revIds hx
      rw [hx, lexLt_append_left, lexLt_pad5 (by omega) (by omega)]
      omega
    rw [sapnNext_of_max hmax, List.drop_left, pyInt_pad5]

theorem int_toNat_succ (k : Nat) : ((k : Int) + 1).toNat = k + 1 := by
  omega

theorem compute_revIds (ccc ss : Str) (k : Nat) (hk : k + 1 ≤ 99999) :
    compute_next_sapn (revIds (sapnPre ccc ss) k) ccc ss =
      .ok (sapnPre ccc ss ++ pad5 (k + 1)) := by
  have hnext := sapnNext_revIds (sapnPre ccc ss) k (by omega)
  rw [compute_next_sapn_eq, hnext, if_neg (by rw [SAPN_MAX_SEQUENCE]; omega),
    pyFormat05_nonneg (by omega), int_toNat_succ]

theorem compute_revIds_overflow (ccc ss : Str) :
    compute_next_sapn (revIds (sapnPre ccc ss) 99999) ccc ss = .error (ccc, ss) := by
  have hnext := sapnNext_revIds (sapnPre ccc ss) 99999 (by omega)
  rw [compute_next_sapn_eq, hnext, if_pos (by rw [SAPN_MAX_SEQUENCE]; omega)]

/-! ## Step-case lemmas for the interleaving model -/

theorem stepCaller_done {ccc ss : Str} {store log : List Str} {cs : CallerState} {o : Outcome}
    (h : cs.outcome = some o) : stepCaller ccc ss store log cs = ((store, log), cs) := by
  obtain ⟨cand, att, out⟩ := cs
  have h2 : out = some o := h
  subst h2
  rfl

theorem stepCaller_compute_error {ccc ss : Str} {store log : List Str} {cs : CallerState}
    {e : Str × Str} (ho : cs.outcome = none) (hc : cs.candidate = none)
    (h : compute_next_sapn store ccc ss = .error e) :
    stepCaller ccc ss store log cs
      = ((store, log), { cs with outcome := some .failedOverflow }) := by
  obtain ⟨cand, att, out⟩ := cs
  have ho2 : out = none := ho
  have hc2 : cand = none := hc
  subst ho2
  subst hc2
  show (match compute_next_sapn store ccc ss with
        | .error _ => ((store, log), (⟨none, att, some Outcome.failedOverflow⟩ : CallerState))
        | .ok c => ((store, log), (⟨some c, att, none⟩ : CallerState))) = _
  rw [h]

theorem stepCaller_compute_ok {ccc ss : Str} {store log : List Str} {cs : CallerState}
    {c : Str} (ho : cs.outcome = none) (hc : cs.candidate = none)
    (h : compute_next_sapn store ccc ss = .ok c) :
    stepCaller ccc ss store log cs = ((store, log), { cs with candidate := some c }) := by
  obtain ⟨cand, att, out⟩ := cs
  have ho2 : out = none := ho
  have hc2 : cand = none := hc
  subst ho2
  subst hc2
  show (match compute_next_sapn store ccc ss with
        | .error _ => ((store, log), (⟨none, att, some Outcome.failedOverflow⟩ : CallerState))
        | .ok c => ((store, log), (⟨some c, att, none⟩ : CallerState))) = _
  rw [h]

theorem stepCaller_conflict {ccc ss : Str} {store log : List Str} {cs : CallerState}
    {c : Str} (ho : cs.outcome = none) (hc : cs.candidate = some c)
    (hmem : c ∈ store) (hatt : cs.attempts + 1 ≠ SAPN_RETRY_ATTEMPTS) :
    stepCaller ccc ss store log cs
      = ((store, log), { cs with candidate := none, attempts := cs.attempts + 1 }) := by
  obtain ⟨cand, att, out⟩ := cs
  have ho2 : out = none := ho
  have hc2 : cand = some c := hc
  subst ho2
  subst hc2
  have hatt2 : ¬(att + 1 = SAPN_RETRY_ATTEMPTS) := hatt
  show (if c ∈ store then
          if att + 1 = SAPN_RETRY_ATTEMPTS then
            ((store, log), (⟨none, att + 1, some Outcome.failedRetries⟩ : CallerState))
          else ((store, log), (⟨none, att + 1, none⟩ : CallerState))
        else ((c :: store, log ++ [c]),
          (⟨none, att, some (Outcome.assigned c)⟩ : CallerState))) = _
  rw [if_pos hmem, if_neg hatt2]

theorem stepCaller_conflict_exhausted {ccc ss : Str} {store log : List Str} {cs : CallerState}
    {c : Str} (ho : cs.outcome = none) (hc : cs.candidate = some c)
    (hmem : c ∈ store) (hatt : cs.attempts + 1 = SAPN_RETRY_ATTEMPTS) :
    stepCaller ccc ss store log cs
      = ((store, log), { cs with candidate := none, attempts := cs.attempts + 1, outcome := some .failedRetries }) := by
  obtain ⟨cand, att, out⟩ := cs
  have ho2 : out = none := ho
  have hc2 : cand = some c := hc
  subst ho2
  subst hc2
  have hatt2 : att + 1 = SAPN_RETRY_ATTEMPTS := hatt
  show (if c ∈ store then
          if att + 1 = SAPN_RETRY_ATTEMPTS then
            ((store, log), (⟨none, att + 1, some Outcome.failedRetries⟩ : CallerState))
          else ((store, log), (⟨none, att + 1, none⟩ : CallerState))
        else ((c :: store, log ++ [c]),
          (⟨none, att, some (Outcome.assigned c)⟩ : CallerState))) = _
  rw [if_pos hmem, if_pos hatt2]

theorem stepCaller_commit {ccc ss : Str} {store log : List Str} {cs : CallerState}
    {c : Str} (ho : cs.outcome = none) (hc : cs.candidate = some c) (hmem : c ∉ store) :
    stepCaller ccc ss store log cs
      = ((c :: store, log ++ [c]),
         { cs with candidate := none, outcome := some (.assigned c) }) := by
  obtain ⟨cand, att, out⟩ := cs
  have ho2 : out = none := ho
  have hc2 : cand = some c := hc
  subst ho2
  subst hc2
  show (if c ∈ store then
          if att + 1 = SAPN_RETRY_ATTEMPTS then
            ((store, log), (⟨none, att + 1, some Outcome.failedRetries⟩ : CallerState))
          else ((store, log), (⟨none, att + 1, none⟩ : CallerState))
        else ((c :: store, log ++ [c]),
          (⟨none, att, some (Outcome.assigned c)⟩ : CallerState))) = _
  rw [if_neg hmem]

theorem stepAt_none {ccc ss : Str} {i : Nat} {g : GlobalState}
    (h : g.callers[i]? = none) : stepAt ccc ss i g = g := by
  rw [stepAt, h]

theorem stepAt_some {ccc ss : Str} {i : Nat} {g : GlobalState} {cs : CallerState}
    (h : g.callers[i]? = some cs) :
    stepAt ccc ss i g
      = ⟨(stepCaller ccc ss g.store g.log cs).1.1,
         g.callers.set i (stepCaller ccc ss g.store g.log cs).2,
         (stepCaller ccc ss g.store g.log cs).1.2⟩ := by
  rw [stepAt, h]

/-! ## countP under point updates -/

theorem countP_set_of_same {α : Type} {p : α → Bool} : ∀ (l : List α) (i : Nat) {a b : α},
    l[i]? = some b → p a = p b → (l.set i a).countP p = l.countP p := by
  intro l
  induction l with
  | nil => intro i a b h _; simp at h
  | cons x xs ih =>
    intro i a b h hpq
    cases i with
    | zero =>
      simp at h
      rw [List.set_cons_zero, List.countP_cons, List.countP_cons, hpq, h]
    | succ n =>
      simp at h
      rw [List.set_cons_succ, List.countP_cons, List.countP_cons, ih n h hpq]

theorem countP_set_incr {α : Type} {p : α → Bool} : ∀ (l : List α) (i : Nat) {a b : α},
    l[i]? = some b → p b = false → p a = true →
    (l.set i a).countP p = l.countP p + 1 := by
  intro l
  induction l with
  | nil => intro i a b h _ _; simp at h
  | cons x xs ih =>
    intro i a b h hb ha
    cases i with
    | zero =>
      simp at h
      rw [List.set_cons_zero, List.countP_cons, List.countP_cons, ha, h, hb]
      simp
    | succ n =>
      simp at h
      rw [List.set_cons_succ, List.countP_cons, List.countP_cons, ih n h hb ha]
      omega

/-! ## The concurrency invariant -/

/-- Invariant of one bucket under any interleaving: the store holds
exactly the identifiers with sequences `1..k`; the commit log lists them
in commit order; exactly `k` callers were assigned; every outstanding
candidate was computed from some (possibly stale) stage `j ≤ k` of the
store and is the identifier with sequence `j + 1 ≤ 99999`. -/
def Inv (pre : Str) (g : GlobalState) : Prop :=
  ∃ k, k ≤ 99999 ∧ g.store = revIds pre k ∧
    g.log = (List.range' 1 k).map (fun j => pre ++ pad5 j) ∧
    countAssigned g.callers = k ∧
    ∀ cs ∈ g.callers, ∀ c, cs.candidate = some c →
      ∃ j, j ≤ k ∧ j + 1 ≤ 99999 ∧ c = pre ++ pad5 (j + 1)

theorem revIds_mem {pre : Str} {k m : Nat} (h1 : 1 ≤ m) (h2 : m ≤ k) :
    pre ++ pad5 m ∈ revIds pre k := by
  rw [revIds, List.mem_reverse, List.mem_map]
  exact ⟨m, List.mem_range'_1.mpr ⟨h1, by omega⟩, rfl⟩

theorem not_mem_revIds_succ {pre : Str} {k : Nat} :
    pre ++ pad5 (k + 1) ∉ revIds pre k := by
  intro hmem
  obtain ⟨j, hj1, hj2, hj3⟩ := mem_revIds hmem
  have := pad5_inj (List.append_cancel_left hj3)
  omega

theorem initState_inv (ccc ss : Str) (n : Nat) : Inv (sapnPre ccc ss) (initState n) := by
  refine ⟨0, by omega, rfl, rfl, ?_, ?_⟩
  · rw [countAssigned, List.countP_eq_zero]
    intro cs hcs
    rw [List.eq_of_mem_replicate hcs]
    decide
  · intro cs hcs c hc
    rw [List.eq_of_mem_replicate hcs] at hc
    exact absurd hc (by simp [freshCaller])

theorem stepAt_preserves (ccc ss : Str) (i : Nat) {g : GlobalState}
    (h : Inv (sapnPre ccc ss) g) : Inv (sapnPre ccc ss) (stepAt ccc ss i g) := by
  obtain ⟨k, hk, hstore, hlog, hcount, hcand⟩ := h
  cases hgi : g.callers[i]? with
  | none =>
    rw [stepAt_none hgi]
    exact ⟨k, hk, hstore, hlog, hcount, hcand⟩
  | some cs =>
    have hmem : cs ∈ g.callers := List.getElem?_mem hgi
    cases hout : cs.outcome with
    | some o =>
      rw [stepAt_some hgi, stepCaller_done hout]
      show Inv (sapnPre ccc ss) ⟨g.store, g.callers.set i cs, g.log⟩
      refine ⟨k, hk, hstore, hlog, ?_, ?_⟩
      · show countAssigned (g.callers.set i cs) = k
        rw [countAssigned, countP_set_of_same g.callers i hgi rfl]
        exact hcount
      · intro cs2 hcs2 c hc
        rcases List.mem_or_eq_of_mem_set hcs2 with h2 | h2
        · exact hcand cs2 h2 c hc
        · subst h2; exact hcand _ hmem c hc
    | none =>
      cases hcnd : cs.candidate with
      | none =>
        cases hcmp : compute_next_sapn g.store ccc ss with
        | error e =>
          rw [stepAt_some hgi, stepCaller_compute_error hout hcnd hcmp]
          show Inv (sapnPre ccc ss)
            ⟨g.store, g.callers.set i { cs with outcome := some Outcome.failedOverflow }, g.log⟩
          refine ⟨k, hk, hstore, hlog, ?_, ?_⟩
          · show countAssigned
              (g.callers.set i { cs with outcome := some Outcome.failedOverflow }) = k
            have hsame : isAssigned { cs with outcome := some Outcome.failedOverflow }
                = isAssigned cs := by
              have h1 : isAssigned { cs with outcome := some Outcome.failedOverflow }
                  = false := rfl
              have h2 : isAssigned cs = false := by rw [isAssigned, hout]
              rw [h1, h2]
            rw [countAssigned, countP_set_of_same g.callers i hgi hsame]
            exact hcount
          · intro cs2 hcs2 c hc
            rcases List.mem_or_eq_of_mem_set hcs2 with h2 | h2
            · exact hcand cs2 h2 c hc
            · subst h2
              rw [show ({ cs with outcome := some Outcome.failedOverflow } : CallerState).candidate = cs.candidate from rfl, hcnd] at hc
              exact absurd hc (by simp)
        | ok c =>
          have hc99 : k + 1 ≤ 99999 ∧ c = sapnPre ccc ss ++ pad5 (k + 1) := by
            by_cases hkk : k = 99999
            · subst hkk
              rw [hstore, compute_revIds_overflow] at hcmp
              cases hcmp
            · have hle : k + 1 ≤ 99999 := by omega
              rw [hstore, compute_revIds ccc ss k hle] at hcmp
              exact ⟨hle, by injection hcmp with h2; exact h2.symm⟩
          rw [stepAt_some hgi, stepCaller_compute_ok hout hcnd hcmp]
          show Inv (sapnPre ccc ss)
            ⟨g.store, g.callers.set i { cs with candidate := some c }, g.log⟩
          refine ⟨k, hk, hstore, hlog, ?_, ?_⟩
          · show countAssigned (g.callers.set i { cs with candidate := some c }) = k
            have hsame : isAssigned { cs with candidate := some c } = isAssigned cs := rfl
            rw [countAssigned, countP_set_of_same g.callers i hgi hsame]
            exact hcount
          · intro cs2 hcs2 c2 hc2
            rcases List.mem_or_eq_of_mem_set hcs2 with h2 | h2
            · exact hcand cs2 h2 c2 hc2
            · subst h2
              rw [show ({ cs with candidate := some c } : CallerState).candidate = some c from rfl] at hc2
              injection hc2 with hc2
              subst hc2
              exact ⟨k, le_refl k, hc99.1, hc99.2⟩
      | some c =>
        obtain ⟨j, hj, hj99, hcform⟩ := hcand cs hmem c hcnd
        by_cases hmemst : c ∈ g.store
        · by_cases hex : cs.attempts + 1 = SAPN_RETRY_ATTEMPTS
          · rw [stepAt_some hgi, stepCaller_conflict_exhausted hout hcnd hmemst hex]
            show Inv (sapnPre ccc ss)
              ⟨g.store, g.callers.set i { cs with candidate := none, attempts := cs.attempts + 1, outcome := some Outcome.failedRetries }, g.log⟩
            refine ⟨k, hk, hstore, hlog, ?_, ?_⟩
            · show countAssigned (g.callers.set i { cs with candidate := none, attempts := cs.attempts + 1, outcome := some Outcome.failedRetries }) = k
              have hsame : isAssigned { cs with candidate := none, attempts := cs.attempts + 1, outcome := some Outcome.failedRetries } = isAssigned cs := by
                have h1 : isAssigned { cs with candidate := none, attempts := cs.attempts + 1, outcome := some Outcome.failedRetries } = false := rfl
                have h2 : isAssigned cs = false := by rw [isAssigned, hout]
                rw [h1, h2]
              rw [countAssigned, countP_set_of_same g.callers i hgi hsame]
              exact hcount
            · intro cs2 hcs2 c2 hc2
              rcases List.mem_or_eq_of_mem_set hcs2 with h2 | h2
              · exact hcand cs2 h2 c2 hc2
              · subst h2
                exact absurd hc2 (by simp)
          · rw [stepAt_some hgi, stepCaller_conflict hout hcnd hmemst hex]
            show Inv (sapnPre ccc ss)
              ⟨g.store, g.callers.set i { cs with candidate := none, attempts := cs.attempts + 1 }, g.log⟩
            refine ⟨k, hk, hstore, hlog, ?_, ?_⟩
            · show countAssigned (g.callers.set i { cs with candidate := none, attempts := cs.attempts + 1 }) = k
              have hsame : isAssigned { cs with candidate := none, attempts := cs.attempts + 1 } = isAssigned cs := rfl
              rw [countAssigned, countP_set_of_same g.callers i hgi hsame]
              exact hcount
            · intro cs2 hcs2 c2 hc2
              rcases List.mem_or_eq_of_mem_set hcs2 with h2 | h2
              · exact hcand cs2 h2 c2 hc2
              · subst h2
                exact absurd hc2 (by simp)
        · have hjk : k = j := by
            by_contra hne
            apply hmemst
            rw [hstore, hcform]
            exact revIds_mem (by omega) (by omega)
          subst hjk
          rw [stepAt_some hgi, stepCaller_commit hout hcnd hmemst]
          show Inv (sapnPre ccc ss)
            ⟨c :: g.store, g.callers.set i { cs with candidate := none, outcome := some (Outcome.assigned c) }, g.log ++ [c]⟩
          refine ⟨k + 1, hj99, ?_, ?_, ?_, ?_⟩
          · show c :: g.store = revIds (sapnPre ccc ss) (k + 1)
            rw [hstore, hcform, revIds_succ]
          · show g.log ++ [c] = (List.range' 1 (k + 1)).map (fun j => sapnPre ccc ss ++ pad5 j)
            rw [hlog, hcform, List.range'_1_concat, List.map_append]
            have h1k : 1 + k = k + 1 := by omega
            rw [h1k]
            rfl
          · show countAssigned (g.callers.set i { cs with candidate := none, outcome := some (Outcome.assigned c) }) = k + 1
            rw [countAssigned] at hcount
            rw [countAssigned, countP_set_incr g.callers i hgi
              (by rw [isAssigned, hout]) rfl, hcount]
          · intro cs2 hcs2 c2 hc2
            rcases List.mem_or_eq_of_mem_set hcs2 with h2 | h2
            · obtain ⟨j2, hj2, hj299, hc2form⟩ := hcand cs2 h2 c2 hc2
              exact ⟨j2, by omega, hj299, hc2form⟩
            · subst h2
              exact absurd hc2 (by simp)

theorem runSched_inv (ccc ss : Str) : ∀ (sched : List Nat) {g : GlobalState},
    Inv (sapnPre ccc ss) g → Inv (sapnPre ccc ss) (runSched ccc ss sched g) := by
  intro sched
  induction sched with
  | nil => intro g h; exact h
  | cons i rest ih => intro g h; exact ih (stepAt_preserves ccc ss i h)

theorem stepAt_length (ccc ss : Str) (i : Nat) (g : GlobalState) :
    ((stepAt ccc ss i g).callers).length = g.callers.length := by
  cases hgi : g.callers[i]? with
  | none => rw [stepAt_none hgi]
  | some cs => rw [stepAt_some hgi]; exact List.length_set _ _ _

theorem runSched_length (ccc ss : Str) : ∀ (sched : List Nat) (g : GlobalState),
    ((runSched ccc ss sched g).callers).length = g.callers.length := by
  intro sched
  induction sched with
  | nil => intro g; rfl
  | cons i rest ih =>
    intro g
    rw [runSched, ih, stepAt_length]

/-! ## The serial schedule -/

theorem runSched_append (ccc ss : Str) : ∀ (a b : List Nat) (g : GlobalState),
    runSched ccc ss (a ++ b) g = runSched ccc ss b (runSched ccc ss a g) := by
  intro a
  induction a with
  | nil => intro b g; rfl
  | cons i rest ih => intro b g; rw [List.cons_append, runSched, runSched, ih]

theorem serialSched_succ (n : Nat) :
    serialSched (n + 1) = serialSched n ++ [n, n] := by
  rw [serialSched, serialSched, List.range_succ, List.flatMap_append]
  rfl

/-- Terminal state of caller `i` after its serial turn: assigned the
identifier with sequence `i + 1`, unless the bucket was already full. -/
def doneCaller (pre : Str) (i : Nat) : CallerState :=
  if i < 99999 then ⟨none, 0, some (.assigned (pre ++ pad5 (i + 1)))⟩
  else ⟨none, 0, some .failedOverflow⟩

/-- Global state after the first `n` of `total` callers completed their
serial turns. -/
def serialState (pre : Str) (total n : Nat) : GlobalState :=
  ⟨revIds pre (min n 99999),
   (List.range total).map (fun i => if i < n then doneCaller pre i else freshCaller),
   (List.range' 1 (min n 99999)).map (fun j => pre ++ pad5 j)⟩

theorem map_range_set {α : Type} (total n : Nat) (f : Nat → α) (v : α) :
    ((List.range total).map f).set n v
      = (List.range total).map (fun i => if i = n then v else f i) := by
  apply List.ext_getElem?
  intro m
  rw [List.getElem?_set]
  by_cases h : n = m
  · subst h
    by_cases hlt : n < ((List.range total).map f).length
    · have hlt2 : n < total := by simpa using hlt
      rw [if_pos rfl, if_pos hlt, List.getElem?_map, List.getElem?_range hlt2]
      simp
    · have hge : total ≤ n := by simpa using hlt
      rw [if_pos rfl, if_neg hlt, List.getElem?_map,
        List.getElem?_eq_none (by rw [List.length_range]; exact hge)]
      rfl
  · rw [if_neg h, List.getElem?_map, List.getElem?_map]
    cases hm : (List.range total)[m]? with
    | none => rfl
    | some x =>
      have : x = m := by
        have hmt : m < total := by
          by_contra hc
          rw [List.getElem?_eq_none (by simpa using hc)] at hm
          cases hm
        rw [List.getElem?_range hmt] at hm
        injection hm with hm
        exact hm.symm
      subst this
      show some (f x) = some (if x = n then v else f x)
      rw [if_neg (fun hc => h hc.symm)]

theorem runSched_serial (ccc ss : Str) (total : Nat) : ∀ n, n ≤ total →
    runSched ccc ss (serialSched n) (initState total)
      = serialState (sapnPre ccc ss) total n := by
  intro n
  induction n with
  | zero =>
    intro _
    show initState total = serialState (sapnPre ccc ss) total 0
    rw [initState, serialState, Nat.zero_min, revIds_zero]
    have hcallers : List.replicate total freshCaller
        = (List.range total).map (fun i => if i < 0 then doneCaller (sapnPre ccc ss) i
            else freshCaller) := by
      rw [List.map_congr_left (g := fun _ => freshCaller)
        (fun a _ => by rw [if_neg (Nat.not_lt_zero a)])]
      rw [List.map_const', List.length_range]
    rw [hcallers]
    rfl
  | succ n ih =>
    intro hle
    rw [serialSched_succ, runSched_append, ih (by omega)]
    by_cases hn : n < 99999
    · have hminn : min n 99999 = n := by omega
      have hss : serialState (sapnPre ccc ss) total n
          = ⟨revIds (sapnPre ccc ss) n,
             (List.range total).map (fun i => if i < n then doneCaller (sapnPre ccc ss) i
               else freshCaller),
             (List.range' 1 n).map (fun j => sapnPre ccc ss ++ pad5 j)⟩ := by
        rw [serialState, hminn]
      rw [hss]
      have hfresh : ((List.range total).map (fun i => if i < n then doneCaller (sapnPre ccc ss) i
          else freshCaller))[n]? = some freshCaller := by
        rw [List.getElem?_map, List.getElem?_range (by omega)]
        show some (if n < n then doneCaller (sapnPre ccc ss) n else freshCaller)
          = some freshCaller
        rw [if_neg (Nat.lt_irrefl n)]
      have hcmp : compute_next_sapn (revIds (sapnPre ccc ss) n) ccc ss
          = .ok (sapnPre ccc ss ++ pad5 (n + 1)) := compute_revIds ccc ss n (by omega)
      have e1 : stepAt ccc ss n
          (⟨revIds (sapnPre ccc ss) n,
            (List.range total).map (fun i => if i < n then doneCaller (sapnPre ccc ss) i
              else freshCaller),
            (List.range' 1 n).map (fun j => sapnPre ccc ss ++ pad5 j)⟩ : GlobalState)
          = ⟨revIds (sapnPre ccc ss) n,
             ((List.range total).map (fun i => if i < n then doneCaller (sapnPre ccc ss) i
               else freshCaller)).set n
               { freshCaller with candidate := some (sapnPre ccc ss ++ pad5 (n + 1)) },
             (List.range' 1 n).map (fun j => sapnPre ccc ss ++ pad5 j)⟩ := by
        rw [stepAt_some hfresh, stepCaller_compute_ok rfl rfl hcmp]
      have hmid : (((List.range total).map (fun i => if i < n then doneCaller (sapnPre ccc ss) i
          else freshCaller)).set n
            { freshCaller with candidate := some (sapnPre ccc ss ++ pad5 (n + 1)) })[n]?
          = some { freshCaller with candidate := some (sapnPre ccc ss ++ pad5 (n + 1)) } :=
        List.getElem?_set_self (by rw [List.length_map, List.length_range]; omega)
      have e2 : stepAt ccc ss n
          (⟨revIds (sapnPre ccc ss) n,
            ((List.range total).map (fun i => if i < n then doneCaller (sapnPre ccc ss) i
              else freshCaller)).set n
              { freshCaller with candidate := some (sapnPre ccc ss ++ pad5 (n + 1)) },
            (List.range' 1 n).map (fun j => sapnPre ccc ss ++ pad5 j)⟩ : GlobalState)
          = ⟨(sapnPre ccc ss ++ pad5 (n + 1)) :: revIds (sapnPre ccc ss) n,
             (((List.range total).map (fun i => if i < n then doneCaller (sapnPre ccc ss) i
               else freshCaller)).set n
               { freshCaller with candidate := some (sapnPre ccc ss ++ pad5 (n + 1)) }).set n
               { { freshCaller with candidate := some (sapnPre ccc ss ++ pad5 (n + 1)) } with
                   candidate := none,
                   outcome := some (Outcome.assigned (sapnPre ccc ss ++ pad5 (n + 1))) },
             ((List.range' 1 n).map (fun j => sapnPre ccc ss ++ pad5 j))
               ++ [sapnPre ccc ss ++ pad5 (n + 1)]⟩ := by
        rw [stepAt_some hmid, stepCaller_commit rfl rfl not_mem_revIds_succ]
      show stepAt ccc ss n (stepAt ccc ss n
        (⟨revIds (sapnPre ccc ss) n,
          (List.range total).map (fun i => if i < n then doneCaller (sapnPre ccc ss) i
            else freshCaller),
          (List.range' 1 n).map (fun j => sapnPre ccc ss ++ pad5 j)⟩ : GlobalState))
        = serialState (sapnPre ccc ss) total (n + 1)
      rw [e1, e2, serialState, show min (n + 1) 99999 = n + 1 from by omega]
      congr 1
      · rw [revIds_succ]
      · rw [List.set_set, map_range_set]
        apply List.map_congr_left
        intro a _
        by_cases ha : a = n
        · subst ha
          rw [if_pos rfl, if_pos (by omega : a < a + 1), doneCaller, if_pos hn]
          rfl
        · rw [if_neg ha]
          by_cases ha2 : a < n
          · rw [if_pos ha2, if_pos (by omega : a < n + 1)]
          · rw [if_neg ha2, if_neg (by omega : ¬ a < n + 1)]
      · rw [List.range'_1_concat, List.map_append,
          show 1 + n = n + 1 from by omega]
        rfl
    · have hminn : min n 99999 = 99999 := by omega
      have hss : serialState (sapnPre ccc ss) total n
          = ⟨revIds (sapnPre ccc ss) 99999,
             (List.range total).map (fun i => if i < n then doneCaller (sapnPre ccc ss) i
               else freshCaller),
             (List.range' 1 99999).map (fun j => sapnPre ccc ss ++ pad5 j)⟩ := by
        rw [serialState, hminn]
      rw [hss]
      have hfresh : ((List.range total).map (fun i => if i < n then doneCaller (sapnPre ccc ss) i
          else freshCaller))[n]? = some freshCaller := by
        rw [List.getElem?_map, List.getElem?_range (by omega)]
        show some (if n < n then doneCaller (sapnPre ccc ss) n else freshCaller)
          = some freshCaller
        rw [if_neg (Nat.lt_irrefl n)]
      have hcmp : compute_next_sapn (revIds (sapnPre ccc ss) 99999) ccc ss
          = .error (ccc, ss) := compute_revIds_overflow ccc ss
      have e1 : stepAt ccc ss n
          (⟨revIds (sapnPre ccc ss) 99999,
            (List.range total).map (fun i => if i < n then doneCaller (sapnPre ccc ss) i
              else freshCaller),
            (List.range' 1 99999).map (fun j => sapnPre ccc ss ++ pad5 j)⟩ : GlobalState)
          = ⟨revIds (sapnPre ccc ss) 99999,
             ((List.range total).map (fun i => if i < n then doneCaller (sapnPre ccc ss) i
               else freshCaller)).set n
               { freshCaller with outcome := some Outcome.failedOverflow },
             (List.range' 1 99999).map (fun j => sapnPre ccc ss ++ pad5 j)⟩ := by
        rw [stepAt_some hfresh, stepCaller_compute_error rfl rfl hcmp]
      have hmid : (((List.range total).map (fun i => if i < n then doneCaller (sapnPre ccc ss) i
          else freshCaller)).set n
            { freshCaller with outcome := some Outcome.failedOverflow })[n]?
          = some { freshCaller with outcome := some Outcome.failedOverflow } :=
        List.getElem?_set_self (by rw [List.length_map, List.length_range]; omega)
      have e2 : stepAt ccc ss n
          (⟨revIds (sapnPre ccc ss) 99999,
            ((List.range total).map (fun i => if i < n then doneCaller (sapnPre ccc ss) i
              else freshCaller)).set n
              { freshCaller with outcome := some Outcome.failedOverflow },
            (List.range' 1 99999).map (fun j => sapnPre ccc ss ++ pad5 j)⟩ : GlobalState)
          = ⟨revIds (sapnPre ccc ss) 99999,
             (((List.range total).map (fun i => if i < n then doneCaller (sapnPre ccc ss) i
               else freshCaller)).set n
               { freshCaller with outcome := some Outcome.failedOverflow }).set n
               { freshCaller with outcome := some Outcome.failedOverflow },
             (List.range' 1 99999).map (fun j => sapnPre ccc ss ++ pad5 j)⟩ := by
        rw [stepAt_some hmid, stepCaller_done rfl]
      show stepAt ccc ss n (stepAt ccc ss n
        (⟨revIds (sapnPre ccc ss) 99999,
          (List.range total).map (fun i => if i < n then doneCaller (sapnPre ccc ss) i
            else freshCaller),
          (List.range' 1 99999).map (fun j => sapnPre ccc ss ++ pad5 j)⟩ : GlobalState))
        = serialState (sapnPre ccc ss) total (n + 1)
      have hfinal : serialState (sapnPre ccc ss) total (n + 1)
          = ⟨revIds (sapnPre ccc ss) 99999,
             (List.range total).map (fun i => if i < n + 1 then doneCaller (sapnPre ccc ss) i
               else freshCaller),
             (List.range' 1 99999).map (fun j => sapnPre ccc ss ++ pad5 j)⟩ := by
        rw [serialState, show min (n + 1) 99999 = 99999 from by omega]
      have hcallers2 : (((List.range total).map (fun i => if i < n
            then doneCaller (sapnPre ccc ss) i else freshCaller)).set n
              { freshCaller with outcome := some Outcome.failedOverflow }).set n
              { freshCaller with outcome := some Outcome.failedOverflow }
          = (List.range total).map (fun i => if i < n + 1 then doneCaller (sapnPre ccc ss) i
              else freshCaller) := by
        rw [List.set_set, map_range_set]
        apply List.map_congr_left
        intro a _
        by_cases ha : a = n
        · subst ha
          rw [if_pos rfl, if_pos (by omega : a < a + 1), doneCaller, if_neg hn]
          rfl
        · rw [if_neg ha]
          by_cases ha2 : a < n
          · rw [if_pos ha2, if_pos (by omega : a < n + 1)]
          · rw [if_neg ha2, if_neg (by omega : ¬ a < n + 1)]
      rw [e1, e2, hfinal, hcallers2]

/-! ## attemptStep case lemmas -/

theorem attemptStep_gen_none {env : AttemptEnv}
    (h : generate_sapn_for_part env.cccOutside env.ssOutside env.storeOutside = none) :
    attemptStep env = some .skippedGenFailed := by
  rw [attemptStep, h]

theorem attemptStep_race {env : AttemptEnv} {ipn0 : Str}
    (hgen : generate_sapn_for_part env.cccOutside env.ssOutside env.storeOutside = some ipn0)
    (h : env.ipnAtRefresh ≠ []) : attemptStep env = some .skippedRace := by
  rw [attemptStep, hgen]
  show (if env.ipnAtRefresh ≠ [] then some Outcome.skippedRace
    else match insideRecompute env ipn0 with
      | .error _ => some Outcome.failedOverflow
      | .ok ipn => if env.saveConflict = true then none else some (Outcome.assigned ipn))
    = some Outcome.skippedRace
  rw [if_pos h]

theorem attemptStep_some_gen {env : AttemptEnv} {ipn0 : Str}
    (hgen : generate_sapn_for_part env.cccOutside env.ssOutside env.storeOutside = some ipn0)
    (hrefresh : env.ipnAtRefresh = []) :
    attemptStep env =
      (match insideRecompute env ipn0 with
      | .error _ => some Outcome.failedOverflow
      | .ok v => if env.saveConflict = true then none else some (Outcome.assigned v)) := by
  rw [attemptStep, hgen]
  show (if env.ipnAtRefresh ≠ [] then some Outcome.skippedRace
    else match insideRecompute env ipn0 with
      | .error _ => some Outcome.failedOverflow
      | .ok ipn => if env.saveConflict = true then none else some (Outcome.assigned ipn)) = _
  rw [if_neg (by rw [hrefresh]; exact fun hc => hc rfl)]

/-- A retry-loop iteration that reaches the conditional write and hits a
uniqueness conflict there. -/
def attemptConflicts (env : AttemptEnv) : Bool :=
  env.saveConflict &&
    match generate_sapn_for_part env.cccOutside env.ssOutside env.storeOutside with
    | none => false
    | some ipn0 =>
      decide (env.ipnAtRefresh = []) &&
        match insideRecompute env ipn0 with
        | .ok _ => true
        | .error _ => false

theorem attemptStep_none_of_conflicts {env : AttemptEnv}
    (h : attemptConflicts env = true) : attemptStep env = none := by
  rw [attemptConflicts, Bool.and_eq_true] at h
  obtain ⟨hconf, hrest⟩ := h
  cases hgen : generate_sapn_for_part env.cccOutside env.ssOutside env.storeOutside with
  | none =>
    rw [hgen] at hrest
    simp at hrest
  | some ipn0 =>
    rw [hgen] at hrest
    have hrest2 : (decide (env.ipnAtRefresh = []) &&
        match insideRecompute env ipn0 with
        | .ok _ => true
        | .error _ => false) = true := hrest
    rw [Bool.and_eq_true] at hrest2
    obtain ⟨hr, hok⟩ := hrest2
    have hrefresh : env.ipnAtRefresh = [] := of_decide_eq_true hr
    cases hrec : insideRecompute env ipn0 with
    | error e =>
      rw [hrec] at hok
      simp at hok
    | ok v =>
      rw [attemptStep_some_gen hgen hrefresh, hrec]
      show (if env.saveConflict = true then none else some (Outcome.assigned v)) = none
      rw [if_pos hconf]

theorem runAlloc_all_conflict (envs : Nat → AttemptEnv) :
    ∀ (fuel k : Nat), (∀ i, k ≤ i → i < k + fuel → attemptStep (envs i) = none) →
    runAlloc envs k fuel = (.failedRetries, k + fuel) := by
  intro fuel
  induction fuel with
  | zero =>
    intro k _
    rw [runAlloc, Nat.add_zero]
  | succ fuel ih =>
    intro k h
    rw [runAlloc, h k (le_refl k) (by omega)]
    rw [ih (k + 1) (fun i h1 h2 => h i (by omega) (by omega))]
    show ((Outcome.failedRetries, k + 1 + fuel) : Outcome × Nat)
      = (Outcome.failedRetries, k + (fuel + 1))
    have h2 : k + 1 + fuel = k + (fuel + 1) := by omega
    rw [h2]

/-! ## Claim theorems -/

/-- C1: for every bucket key, an empty bucket (no stored identifier starts
with the bucket prefix) yields next sequence 1 and identifier suffix
`00001`; if the lexicographically maximal prefixed identifier's suffix
parses as an integer `n` via `int()`, the next sequence is `n + 1` (and,
absent overflow, the returned identifier carries it); if the suffix fails
to parse, the bucket is treated as empty — next sequence 1, identifier
suffix `00001`, no fatal error, so the bucket stays usable. -/
theorem sapn_C1_next_sequence (store : List Str) (ccc ss : Str) :
    ((∀ s ∈ store, (sapnPre ccc ss).isPrefixOf s = false) →
      sapnNext store (sapnPre ccc ss) = 1 ∧
      compute_next_sapn store ccc ss = .ok (sapnPre ccc ss ++ "00001".data)) ∧
    (∀ latest, lexMax? (store.filter (fun s => (sapnPre ccc ss).isPrefixOf s)) = some latest →
      (∀ n : Int, pyInt (latest.drop (sapnPre ccc ss).length) = some n →
        sapnNext store (sapnPre ccc ss) = n + 1 ∧
        (n + 1 ≤ 99999 →
          compute_next_sapn store ccc ss = .ok (sapnPre ccc ss ++ pyFormat05 (n + 1)))) ∧
      (pyInt (latest.drop (sapnPre ccc ss).length) = none →
        sapnNext store (sapnPre ccc ss) = 1 ∧
        compute_next_sapn store ccc ss = .ok (sapnPre ccc ss ++ "00001".data))) := by
  have hfmt1 : pyFormat05 1 = "00001".data := by decide
  refine ⟨?_, ?_⟩
  · intro hempty
    have hfilter : store.filter (fun s => (sapnPre ccc ss).isPrefixOf s) = [] := by
      rw [List.filter_eq_nil_iff]
      intro a ha
      rw [hempty a ha]
      decide
    have hnone : lexMax? (store.filter (fun s => (sapnPre ccc ss).isPrefixOf s)) = none := by
      rw [hfilter]
      rfl
    have hnext := sapnNext_of_none hnone
    refine ⟨hnext, ?_⟩
    rw [compute_next_sapn_eq, hnext, if_neg (by rw [SAPN_MAX_SEQUENCE]; omega), hfmt1]
  · intro latest hmax
    refine ⟨?_, ?_⟩
    · intro n hp
      have hnext : sapnNext store (sapnPre ccc ss) = n + 1 := by
        rw [sapnNext_of_max hmax, hp]
      refine ⟨hnext, ?_⟩
      intro hle
      rw [compute_next_sapn_eq, hnext, if_neg (by rw [SAPN_MAX_SEQUENCE]; omega)]
    · intro hp
      have hnext : sapnNext store (sapnPre ccc ss) = 1 := by
        rw [sapnNext_of_max hmax, hp]
      refine ⟨hnext, ?_⟩
      rw [compute_next_sapn_eq, hnext, if_neg (by rw [SAPN_MAX_SEQUENCE]; omega), hfmt1]

/-- Witness for C1: with existing maximum `SAPN-ELC-11-00041`, the next
sequence is 42 and the generated identifier is `SAPN-ELC-11-00042`. -/
theorem sapn_C1_witness :
    sapnNext ["SAPN-ELC-11-00041".data] (sapnPre "ELC".data "11".data) = 42 ∧
    compute_next_sapn ["SAPN-ELC-11-00041".data] "ELC".data "11".data
      = .ok "SAPN-ELC-11-00042".data := by
  have h := (sapn_C1_next_sequence ["SAPN-ELC-11-00041".data] "ELC".data "11".data).2
    "SAPN-ELC-11-00041".data (by decide)
  have h1 := h.1 41 (by decide)
  refine ⟨by rw [h1.1]; decide, ?_⟩
  have h2 := h1.2 (by decide)
  rw [h2]
  decide

/-- C4: whenever the computed next sequence of a bucket exceeds
`SAPN_MAX_SEQUENCE = 99999`, `compute_next_sapn` fails with the overflow
error carrying the bucket key and returns no identifier; inside the
allocation retry loop an overflow raised by the in-transaction recompute
is terminal (`failedOverflow`), and any terminal attempt outcome ends the
loop immediately — it is not retried. -/
theorem sapn_C4_overflow :
    (∀ (store : List Str) (ccc ss : Str),
      sapnNext store (sapnPre ccc ss) > SAPN_MAX_SEQUENCE →
      compute_next_sapn store ccc ss = .error (ccc, ss)) ∧
    (∀ (env : AttemptEnv) (ipn0 : Str) (e : Str × Str),
      generate_sapn_for_part env.cccOutside env.ssOutside env.storeOutside = some ipn0 →
      env.ipnAtRefresh = [] →
      insideRecompute env ipn0 = .error e →
      attemptStep env = some .failedOverflow) ∧
    (∀ (envs : Nat → AttemptEnv) (k fuel : Nat) (o : Outcome),
      attemptStep (envs k) = some o → runAlloc envs k (fuel + 1) = (o, k + 1)) := by
  refine ⟨?_, ?_, ?_⟩
  · intro store ccc ss h
    rw [compute_next_sapn_eq, if_pos h]
  · intro env ipn0 e hgen hrefresh herr
    rw [attemptStep, hgen]
    show (if env.ipnAtRefresh ≠ [] then some Outcome.skippedRace
      else match insideRecompute env ipn0 with
        | .error _ => some Outcome.failedOverflow
        | .ok ipn => if env.saveConflict = true then none else some (Outcome.assigned ipn))
      = some Outcome.failedOverflow
    rw [if_neg (by rw [hrefresh]; exact fun hc => hc rfl), herr]
  · intro envs k fuel o h
    rw [runAlloc, h]

/-- Witness for C4: with existing maximum `SAPN-ELC-11-99999`, the bucket
overflows: an error carrying the bucket key, no identifier. -/
theorem sapn_C4_witness :
    compute_next_sapn ["SAPN-ELC-11-99999".data] "ELC".data "11".data
      = .error ("ELC".data, "11".data) :=
  sapn_C4_overflow.1 ["SAPN-ELC-11-99999".data] "ELC".data "11".data (by decide)

/-- C8: the formatter renders the sequence as a decimal integer zero-padded
to exactly 5 digits, and for sequence values in `[1, 99999]` with any
common prefix, numeric order of the sequences coincides with lexicographic
order of the full identifier strings. -/
theorem sapn_C8_lex_order (p : Str) (m n : Nat)
    (hm1 : 1 ≤ m) (hm2 : m ≤ 99999) (hn1 : 1 ≤ n) (hn2 : n ≤ 99999) :
    (pyFormat05 ((m : Nat) : Int)).length = 5 ∧
    allDigits (pyFormat05 ((m : Nat) : Int)) ∧
    numVal (pyFormat05 ((m : Nat) : Int)) = m ∧
    (m ≤ n ↔ lexLe (p ++ pyFormat05 ((m : Nat) : Int)) (p ++ pyFormat05 ((n : Nat) : Int))) := by
  have hfm : pyFormat05 ((m : Nat) : Int) = pad5 m := by
    rw [pyFormat05_nonneg (by omega), Int.toNat_natCast]
  have hfn : pyFormat05 ((n : Nat) : Int) = pad5 n := by
    rw [pyFormat05_nonneg (by omega), Int.toNat_natCast]
  rw [hfm, hfn]
  refine ⟨pad5_length hm2, pad5_allDigits m, pad5_numVal m, ?_⟩
  constructor
  · intro h
    rcases Nat.lt_or_ge m n with h1 | h1
    · exact Or.inl (by
        rw [lexLt_append_left, lexLt_pad5 hm2 hn2]
        exact h1)
    · have : m = n := by omega
      exact Or.inr (by rw [this])
  · intro h
    rcases h with h | h
    · rw [lexLt_append_left, lexLt_pad5 hm2 hn2] at h
      omega
    · have := pad5_inj (List.append_cancel_left h)
      omega

/-- Witness for C8 at sequences 41 and 42 under the prefix
`SAPN-ELC-11-`. -/
theorem sapn_C8_witness :
    (pyFormat05 ((41 : Nat) : Int)).length = 5 ∧
    allDigits (pyFormat05 ((41 : Nat) : Int)) ∧
    numVal (pyFormat05 ((41 : Nat) : Int)) = 41 ∧
    (41 ≤ 42 ↔ lexLe ("SAPN-ELC-11-".data ++ pyFormat05 ((41 : Nat) : Int))
      ("SAPN-ELC-11-".data ++ pyFormat05 ((42 : Nat) : Int))) :=
  sapn_C8_lex_order "SAPN-ELC-11-".data 41 42 (by omega) (by omega) (by omega) (by omega)

/-- Whether the parsed suffix of the current lexicographically maximal
identifier of a bucket (if any, and if it parses) is nonnegative. -/
def suffixNonneg (store : List Str) (pre : Str) : Bool :=
  match lexMax? (store.filter (fun s => pre.isPrefixOf s)) with
  | none => true
  | some latest =>
    match pyInt (latest.drop pre.length) with
    | none => true
    | some z => decide (0 ≤ z)

/-- C9 (amended): provided the maximal existing identifier's suffix does
not parse as a negative integer, every identifier `compute_next_sapn`
returns is the bucket prefix followed by an exactly-5-digit suffix whose
value lies in `[1, 99999]`.  (The proviso is forced by the counterexample:
a stored identifier with a negative-parsing suffix such as `-0005` makes
the code return a non-digit suffix encoding a value below 1.) -/
theorem sapn_C9_seq_range (store : List Str) (ccc ss : Str) (out : Str)
    (hnn : suffixNonneg store (sapnPre ccc ss) = true)
    (hok : compute_next_sapn store ccc ss = .ok out) :
    ∃ v : Nat, 1 ≤ v ∧ v ≤ 99999 ∧ out = sapnPre ccc ss ++ pad5 v ∧
      (pad5 v).length = 5 ∧ allDigits (pad5 v) ∧ numVal (pad5 v) = v := by
  have hnext1 : 1 ≤ sapnNext store (sapnPre ccc ss) := by
    cases hmax : lexMax? (store.filter (fun s => (sapnPre ccc ss).isPrefixOf s)) with
    | none => rw [sapnNext_of_none hmax]
    | some latest =>
      rw [sapnNext_of_max hmax]
      rw [suffixNonneg, hmax] at hnn
      have hnn2 : (match pyInt (latest.drop (sapnPre ccc ss).length) with
        | none => true
        | some z => decide (0 ≤ z)) = true := hnn
      cases hp : pyInt (latest.drop (sapnPre ccc ss).length) with
      | none => exact le_refl 1
      | some z =>
        rw [hp] at hnn2
        have hz : (0 : Int) ≤ z := of_decide_eq_true hnn2
        show (1 : Int) ≤ z + 1
        omega
  rw [compute_next_sapn_eq] at hok
  by_cases hov : sapnNext store (sapnPre ccc ss) > SAPN_MAX_SEQUENCE
  · rw [if_pos hov] at hok
    cases hok
  · rw [if_neg hov] at hok
    rw [SAPN_MAX_SEQUENCE] at hov
    have hle : sapnNext store (sapnPre ccc ss) ≤ 99999 := by omega
    have hout : sapnPre ccc ss ++ pyFormat05 (sapnNext store (sapnPre ccc ss)) = out := by
      injection hok
    refine ⟨(sapnNext store (sapnPre ccc ss)).toNat, by omega, by omega, ?_,
      pad5_length (by omega), pad5_allDigits _, pad5_numVal _⟩
    rw [← hout, pyFormat05_nonneg (by omega)]

/-- Witness for C9: a store holding `SAPN-ELC-11-00041` satisfies the
nonnegative-suffix proviso, and the returned identifier
`SAPN-ELC-11-00042` decomposes as prefix plus the 5-digit rendering of
42. -/
theorem sapn_C9_witness :
    ∃ v : Nat, 1 ≤ v ∧ v ≤ 99999 ∧
      "SAPN-ELC-11-00042".data = sapnPre "ELC".data "11".data ++ pad5 v ∧
      (pad5 v).length = 5 ∧ allDigits (pad5 v) ∧ numVal (pad5 v) = v :=
  sapn_C9_seq_range ["SAPN-ELC-11-00041".data] "ELC".data "11".data
    "SAPN-ELC-11-00042".data (by decide) (by decide)

/-- Counterexample for C9 as stated: with stored identifier
`SAPN-ELC-11--0005` (suffix parsing as -5 under `int()`), the code
returns `SAPN-ELC-11--0004`, whose suffix is not the 5-digit rendering of
any sequence value in `[1, 99999]`. -/
theorem sapn_C9_counterexample :
    compute_next_sapn ["SAPN-ELC-11--0005".data] "ELC".data "11".data
      = .ok "SAPN-ELC-11--0004".data ∧
    ∀ v : Nat, 1 ≤ v → v ≤ 99999 →
      "SAPN-ELC-11--0004".data ≠ sapnPre "ELC".data "11".data ++ pad5 v := by
  refine ⟨by decide, ?_⟩
  intro v h1 h2 heq
  have hdropL : List.drop 12 "SAPN-ELC-11--0004".data = "-0004".data := by decide
  have hdropR : List.drop 12 (sapnPre "ELC".data "11".data ++ pad5 v) = pad5 v := by
    rw [show (12 : Nat) = (sapnPre "ELC".data "11".data).length from by decide]
    exact List.drop_left _ _
  have hpad : "-0004".data = pad5 v := by
    rw [← hdropL, ← hdropR, heq]
  have hmem : '-' ∈ pad5 v := by
    rw [← hpad]
    decide
  have := pad5_allDigits v '-' hmem
  exact absurd this (by decide)

/-- C10: the suffix of the maximal existing identifier is parsed with
Python `int()`, which is strictly more lenient than the anchored 5-digit
format: suffixes `+0041`, ` 41`, `4_1` and `000123` all coerce, and the
next identifier continues from the coerced value plus one instead of
restarting at 1. -/
theorem sapn_C10_lenient_parse :
    compute_next_sapn ["SAPN-ELC-11-+0041".data] "ELC".data "11".data
      = .ok "SAPN-ELC-11-00042".data ∧
    compute_next_sapn ["SAPN-ELC-11- 41".data] "ELC".data "11".data
      = .ok "SAPN-ELC-11-00042".data ∧
    compute_next_sapn ["SAPN-ELC-11-4_1".data] "ELC".data "11".data
      = .ok "SAPN-ELC-11-00042".data ∧
    compute_next_sapn ["SAPN-ELC-11-000123".data] "ELC".data "11".data
      = .ok "SAPN-ELC-11-00124".data :=
  ⟨rfl, rfl, rfl, rfl⟩


/-- C7 (auxiliary): relation between `normalize` failure and
`generate_sapn_for_part`: a validation failure means no identifier is
generated. -/
theorem generate_none_of_normalize_none {rawC rawS : Str}
    (h : normalize rawC rawS = none) (store : List Str) :
    generate_sapn_for_part (some rawC) (some rawS) store = none := by
  rw [normalize] at h
  rw [generate_sapn_for_part]
  by_cases hc0 : rawC = []
  · rw [if_pos hc0]
  · rw [if_neg hc0] at h ⊢
    by_cases hcv : validate_ccc (pyUpper (pyStrip rawC)) = true
    · rw [hcv] at h ⊢
      simp only [Bool.not_true, Bool.false_eq_true, if_false] at h ⊢
      by_cases hs0 : rawS = []
      · rw [if_pos hs0]
      · rw [if_neg hs0] at h ⊢
        by_cases hsv : validate_ss (pyStrip rawS) = true
        · rw [hsv] at h
          simp at h
        · rw [Bool.not_eq_true] at hsv
          rw [hsv]
          simp
    · rw [Bool.not_eq_true] at hcv
      rw [hcv] at h ⊢
      simp

/-- C7: normalization (strip both raw inputs, uppercase the category)
succeeds and yields the normalized bucket key exactly when the normalized
category matches anchored `[A-Z]{3}` and the normalized subcategory
matches anchored `\d{2}`; in every other case it fails and — via
`generate_sapn_for_part` — no identifier is generated.  Includes the
spec's examples: `normalize(" elc ", " 11 ") = BucketKey{ELC, 11}` and
`normalize("EL", "11")` fails. -/
theorem sapn_C7_validation (rawC rawS : Str) :
    ((normalize rawC rawS).isSome = true ↔
      matchesCCCCore (pyUpper (pyStrip rawC)) = true ∧
      matchesSSCore (pyStrip rawS) = true) ∧
    (∀ key, normalize rawC rawS = some key →
      key = (pyUpper (pyStrip rawC), pyStrip rawS)) ∧
    (normalize rawC rawS = none →
      ∀ store, generate_sapn_for_part (some rawC) (some rawS) store = none) ∧
    normalize " elc ".data " 11 ".data = some ("ELC".data, "11".data) ∧
    normalize "EL".data "11".data = none := by
  refine ⟨?_, ?_, fun h store => generate_none_of_normalize_none h store, by decide, by decide⟩
  · rw [normalize]
    by_cases hc0 : rawC = []
    · rw [if_pos hc0, hc0]
      simp only [Option.isSome_none, Bool.false_eq_true, false_iff, not_and]
      intro hcv
      exact absurd hcv (by decide)
    · rw [if_neg hc0, validate_ccc_after_normalize rawC]
      by_cases hcv : matchesCCCCore (pyUpper (pyStrip rawC)) = true
      · rw [hcv]
        simp only [Bool.not_true, Bool.false_eq_true, if_false]
        by_cases hs0 : rawS = []
        · rw [if_pos hs0, hs0]
          simp only [Option.isSome_none, Bool.false_eq_true, false_iff, not_and]
          intro _
          decide
        · rw [if_neg hs0, validate_ss_after_normalize rawS]
          by_cases hsv : matchesSSCore (pyStrip rawS) = true
          · rw [hsv]
            simp [hcv, hsv]
          · rw [Bool.not_eq_true] at hsv
            rw [hsv]
            simp [hsv]
      · rw [Bool.not_eq_true] at hcv
        rw [hcv]
        simp [hcv]
  · rw [normalize]
    by_cases hc0 : rawC = []
    · rw [if_pos hc0]
      intro key hk
      cases hk
    · rw [if_neg hc0]
      by_cases hcv : validate_ccc (pyUpper (pyStrip rawC)) = true
      · rw [hcv]
        simp only [Bool.not_true, Bool.false_eq_true, if_false]
        by_cases hs0 : rawS = []
        · rw [if_pos hs0]
          intro key hk
          cases hk
        · rw [if_neg hs0]
          by_cases hsv : validate_ss (pyStrip rawS) = true
          · rw [hsv]
            simp only [Bool.not_true, Bool.false_eq_true, if_false]
            intro key hk
            cases hk
            rfl
          · rw [Bool.not_eq_true] at hsv
            rw [hsv]
            intro key hk
            simp at hk
      · rw [Bool.not_eq_true] at hcv
        rw [hcv]
        intro key hk
        simp at hk

/-- Witness for C7: the failing example generates no identifier, and the
canonical example normalizes to the expected bucket key. -/
theorem sapn_C7_witness :
    generate_sapn_for_part (some "EL".data) (some "11".data) [] = none ∧
    normalize " elc ".data " 11 ".data = some ("ELC".data, "11".data) := by
  have h := sapn_C7_validation "EL".data "11".data
  exact ⟨h.2.2.1 (by decide) [], (sapn_C7_validation " elc ".data " 11 ".data).2.2.2.1⟩


/-- C2 (amended): the attribute re-read inside the atomic write is not
passed through the Key Validator.  A validation failure at the
pre-transaction resolution (`generate_sapn_for_part`) is terminal
(Skipped); but inside the transaction, if both re-read raw attributes are
truthy the identifier is recomputed from their merely trimmed/uppercased
values without re-validation, and if either is missing/empty the
identifier computed before the transaction — from the earlier,
possibly stale attribute reads — is assigned. -/
theorem sapn_C2_revalidation (env : AttemptEnv) :
    (generate_sapn_for_part env.cccOutside env.ssOutside env.storeOutside = none →
      attemptStep env = some .skippedGenFailed) ∧
    (∀ ipn0, generate_sapn_for_part env.cccOutside env.ssOutside env.storeOutside = some ipn0 →
      env.ipnAtRefresh = [] →
      (truthy env.cccInside && truthy env.ssInside) = true →
      attemptStep env =
        (match compute_next_sapn env.storeInside
            (pyUpper (pyStrip (env.cccInside.getD []))) (pyStrip (env.ssInside.getD [])) with
        | .error _ => some Outcome.failedOverflow
        | .ok v => if env.saveConflict = true then none else some (Outcome.assigned v))) ∧
    (∀ ipn0, generate_sapn_for_part env.cccOutside env.ssOutside env.storeOutside = some ipn0 →
      env.ipnAtRefresh = [] →
      (truthy env.cccInside && truthy env.ssInside) = false →
      attemptStep env =
        if env.saveConflict = true then none else some (Outcome.assigned ipn0)) := by
  refine ⟨fun h => attemptStep_gen_none h, ?_, ?_⟩
  · intro ipn0 hgen hrefresh htruthy
    rw [attemptStep_some_gen hgen hrefresh, insideRecompute, if_pos htruthy]
  · intro ipn0 hgen hrefresh hfalse
    rw [attemptStep_some_gen hgen hrefresh, insideRecompute,
      if_neg (by rw [hfalse]; exact Bool.false_ne_true)]

/-- Witness for C2 (amended): with valid pre-transaction attributes and a
missing in-transaction category attribute, the stale pre-transaction
identifier is assigned. -/
theorem sapn_C2_witness :
    attemptStep ⟨some "ELC".data, some "11".data, [], [], none, some "11".data, [], false⟩
      = some (.assigned "SAPN-ELC-11-00001".data) := by
  have h := (sapn_C2_revalidation
    ⟨some "ELC".data, some "11".data, [], [], none, some "11".data, [], false⟩).2.2
    "SAPN-ELC-11-00001".data (by decide) rfl (by decide)
  rw [h]
  rfl

/-- Counterexample for C2 as stated: between the initial resolution and the
atomic write the category attribute changes to `e!c`, which fails the
`[A-Z]{3}` validation after normalization; the allocator nevertheless
assigns the identifier `SAPN-E!C-11-00001` built from it. -/
theorem sapn_C2_counterexample :
    attemptStep ⟨some "ELC".data, some "11".data, [], [], some "e!c".data, some "11".data,
      [], false⟩ = some (.assigned "SAPN-E!C-11-00001".data) ∧
    validate_ccc (pyUpper (pyStrip "e!c".data)) = false := ⟨rfl, rfl⟩

/-- C3: an entity whose identifier field is already non-empty is never
reassigned: a non-empty identifier at the initial guard makes
`process_event` terminate immediately as Skipped with zero allocation
attempts, and a non-empty identifier observed at the in-transaction
re-check makes the attempt terminate as Skipped; in neither case is an
assignment outcome (the only mutating outcome) possible, so repeated
invocations assign at most once. -/
theorem sapn_C3_no_reassignment :
    (∀ (ipn0 : Str) (envs : Nat → AttemptEnv), ipn0 ≠ [] →
      process_event true ipn0 envs = (.skippedHasIPN, 0)) ∧
    (∀ env : AttemptEnv, env.ipnAtRefresh ≠ [] →
      attemptStep env = some .skippedGenFailed ∨ attemptStep env = some .skippedRace) ∧
    (∀ (env : AttemptEnv) (ipn : Str), env.ipnAtRefresh ≠ [] →
      attemptStep env ≠ some (.assigned ipn)) := by
  have hstep : ∀ env : AttemptEnv, env.ipnAtRefresh ≠ [] →
      attemptStep env = some .skippedGenFailed ∨ attemptStep env = some .skippedRace := by
    intro env h
    cases hgen : generate_sapn_for_part env.cccOutside env.ssOutside env.storeOutside with
    | none => exact Or.inl (attemptStep_gen_none hgen)
    | some ipn0 => exact Or.inr (attemptStep_race hgen h)
  refine ⟨?_, hstep, ?_⟩
  · intro ipn0 envs h
    rw [process_event, if_neg (by decide), if_pos h]
  · intro env ipn h hc
    rcases hstep env h with h2 | h2 <;> rw [h2] at hc <;> simp at hc

/-- Witness for C3: a part fetched with the non-empty identifier
`SAPN-ELC-11-00001` is skipped with zero attempts, and an attempt whose
refreshed identifier is non-empty cannot assign. -/
theorem sapn_C3_witness :
    process_event true "SAPN-ELC-11-00001".data
      (fun _ => ⟨none, none, [], [], none, none, [], false⟩) = (.skippedHasIPN, 0) ∧
    attemptStep ⟨some "ELC".data, some "11".data, [], "SAPN-ELC-11-00007".data,
        some "ELC".data, some "11".data, [], false⟩
      ≠ some (.assigned "SAPN-ELC-11-00001".data) :=
  ⟨sapn_C3_no_reassignment.1 _ _ (by decide),
   sapn_C3_no_reassignment.2.2 _ _ (by decide)⟩

/-- C5: if every attempt of the retry loop reaches the conditional write
and every write raises a uniqueness conflict, `process_event` terminates
with the retries-exhausted failure after exactly `SAPN_RETRY_ATTEMPTS`
= 10 attempts — not fewer and not infinitely many. -/
theorem sapn_C5_retry_exhaustion (envs : Nat → AttemptEnv)
    (h : ∀ k, k < 10 → attemptConflicts (envs k) = true) :
    process_event true [] envs = (.failedRetries, SAPN_RETRY_ATTEMPTS) ∧
    SAPN_RETRY_ATTEMPTS = 10 := by
  refine ⟨?_, rfl⟩
  rw [process_event, if_neg (by decide), if_neg (by simp)]
  rw [runAlloc_all_conflict envs SAPN_RETRY_ATTEMPTS 0
    (fun i h1 h2 => attemptStep_none_of_conflicts
      (h i (by rw [SAPN_RETRY_ATTEMPTS] at h2; omega)))]
  show ((Outcome.failedRetries, 0 + SAPN_RETRY_ATTEMPTS) : Outcome × Nat)
    = (Outcome.failedRetries, SAPN_RETRY_ATTEMPTS)
  rw [Nat.zero_add]

/-- Witness for C5: an environment whose every attempt resolves the bucket
`(ELC, 11)` on an empty store and then conflicts on the write exhausts
exactly 10 attempts and fails. -/
theorem sapn_C5_witness :
    process_event true []
      (fun _ => ⟨some "ELC".data, some "11".data, [], [], some "ELC".data, some "11".data,
        [], true⟩) = (.failedRetries, SAPN_RETRY_ATTEMPTS) ∧
    SAPN_RETRY_ATTEMPTS = 10 :=
  sapn_C5_retry_exhaustion _ (by decide)


/-- C6 (amended): under every interleaving of N concurrent allocations in
one bucket starting from an empty store — candidate computations read the
store at their scheduled moment (possibly stale), and the atomic
conditional write is the single synchronization point, conflicting when
the candidate is already taken — the assigned identifiers are exactly
those with sequence numbers 1..k in commit order, where k ≤ min(N, 99999)
is the number of callers whose allocation succeeded: no duplicates, no
gaps among assigned values, strictly increasing in assignment order,
never reused (invariant I1).  Under the conflict-free serial schedule
with N ≤ 99999, every caller succeeds and the sequences are exactly
{1..N}.  (Both provisos are forced by the counterexample: an adversarial
schedule can make a caller exhaust its 10 attempts once N ≥ 11, and the
sequence space holds only 99999 values.) -/
theorem sapn_C6_concurrent_alloc (ccc ss : Str) (N : Nat) (sched : List Nat) :
    (∃ k, k ≤ 99999 ∧ k ≤ N ∧
      (runSched ccc ss sched (initState N)).log
        = (List.range' 1 k).map (fun j => sapnPre ccc ss ++ pad5 j) ∧
      ((runSched ccc ss sched (initState N)).log).Nodup ∧
      countAssigned ((runSched ccc ss sched (initState N)).callers) = k) ∧
    (N ≤ 99999 →
      (runSched ccc ss (serialSched N) (initState N)).log
        = (List.range' 1 N).map (fun j => sapnPre ccc ss ++ pad5 j) ∧
      ∀ cs ∈ (runSched ccc ss (serialSched N) (initState N)).callers,
        ∃ m, 1 ≤ m ∧ m ≤ N ∧
          cs.outcome = some (.assigned (sapnPre ccc ss ++ pad5 m))) := by
  constructor
  · obtain ⟨k, hk, _, hlog, hcount, _⟩ :=
      runSched_inv ccc ss sched (initState_inv ccc ss N)
    have hkN : k ≤ N := by
      rw [← hcount]
      calc countAssigned ((runSched ccc ss sched (initState N)).callers)
          ≤ ((runSched ccc ss sched (initState N)).callers).length :=
            List.countP_le_length _
        _ = N := by rw [runSched_length, initState, List.length_replicate]
    refine ⟨k, hk, hkN, hlog, ?_, hcount⟩
    rw [hlog]
    apply List.Nodup.map_on
    · intro x _ y _ hxy
      exact pad5_inj (List.append_cancel_left hxy)
    · exact List.nodup_range' 1 k
  · intro hN
    rw [runSched_serial ccc ss N N (le_refl N)]
    have hminN : min N 99999 = N := by omega
    constructor
    · rw [serialState]
      show (List.range' 1 (min N 99999)).map _ = _
      rw [hminN]
    · intro cs hcs
      rw [serialState] at hcs
      rw [List.mem_map] at hcs
      obtain ⟨i, hi, hcs⟩ := hcs
      rw [List.mem_range] at hi
      rw [if_pos hi, doneCaller, if_pos (by omega : i < 99999)] at hcs
      exact ⟨i + 1, by omega, by omega, by rw [← hcs]⟩

/-- Witness for C6: three serial allocations in bucket `(ELC, 11)` assign
exactly the identifiers with sequences 1, 2, 3, and every caller ends
assigned. -/
theorem sapn_C6_witness :
    (runSched "ELC".data "11".data (serialSched 3) (initState 3)).log
      = (List.range' 1 3).map (fun j => sapnPre "ELC".data "11".data ++ pad5 j) ∧
    ∀ cs ∈ (runSched "ELC".data "11".data (serialSched 3) (initState 3)).callers,
      ∃ m, 1 ≤ m ∧ m ≤ 3 ∧
        cs.outcome = some (.assigned (sapnPre "ELC".data "11".data ++ pad5 m)) :=
  (sapn_C6_concurrent_alloc "ELC".data "11".data 3 (serialSched 3)).2 (by omega)

/-- Counterexample for C6 as stated: with N = 11 concurrent allocations
there is an interleaving — caller 0's candidate is taken by a distinct
peer's commit on each of its 10 attempts — under which caller 0 exhausts
its retries (`failedRetries`, 10 attempts consumed) and only 10
identifiers are assigned, not 11; and at N = 100000 even the
conflict-free serial schedule assigns only 99999 identifiers, the bucket
overflowing.  In neither case does the run yield N distinct identifiers
with sequences {1..N}. -/
theorem sapn_C6_counterexample :
    ((runSched "ELC".data "11".data
        [0, 1, 1, 0, 0, 2, 2, 0, 0, 3, 3, 0, 0, 4, 4, 0, 0, 5, 5, 0,
         0, 6, 6, 0, 0, 7, 7, 0, 0, 8, 8, 0, 0, 9, 9, 0, 0, 10, 10, 0]
        (initState 11)).log).length = 10 ∧
    ((runSched "ELC".data "11".data
        [0, 1, 1, 0, 0, 2, 2, 0, 0, 3, 3, 0, 0, 4, 4, 0, 0, 5, 5, 0,
         0, 6, 6, 0, 0, 7, 7, 0, 0, 8, 8, 0, 0, 9, 9, 0, 0, 10, 10, 0]
        (initState 11)).callers)[0]? = some ⟨none, 10, some .failedRetries⟩ ∧
    (10 : Nat) ≠ 11 ∧
    ((runSched "ELC".data "11".data (serialSched 100000)
        (initState 100000)).log).length = 99999 := by
  refine ⟨by decide, by decide, by omega, ?_⟩
  rw [runSched_serial "ELC".data "11".data 100000 100000 (le_refl _)]
  show ((List.range' 1 (min 100000 99999)).map _).length = 99999
  rw [List.length_map, List.length_range']
  omega

end SAPN
